import Mathlib

/-!
# Verification of the rag-toolkit text segmentation engine

This development gives a shallow embedding, in Lean 4, of the text chunking
library of the repository (src/lib/chunking.ts, the chunking copy inside
src/components/ui/ApiKeyManager.tsx that hosts `recursiveTextSplitter` and its
fixed-length fallback, and the cosine-similarity ranker in
src/app/home/page.tsx), and proves or refutes the specification's claims
about it.

Modelling conventions, used throughout:

* JavaScript numbers are modelled exactly: integer-valued quantities as `Nat`
  (or `Int` where a subtraction can go negative), fractional arithmetic as
  `Rat`.  IEEE-754 rounding of double arithmetic is not modelled; every place
  where a comparison could in principle be decided differently by doubles is
  marked with a comment.  `Math.sqrt` is irrational and is therefore passed in
  as an oracle parameter `sqrt : Rat → Rat`; all theorems about code touching
  it either quantify over the oracle or constrain it only at arguments where
  `Math.sqrt` is rational (e.g. `sqrt 0 = 0`).
* A JavaScript `NaN` (or an infinite value) escaping a computation is
  modelled by `Option`/`Except`: `none`/`.error` marks the non-finite or
  thrown outcome.
* Strings are Lean `String`s; character-level scanning works on `String.data`
  (`List Char`).  JS `.length` counts UTF-16 units while `String.length`
  counts code points; they agree on every text appearing in these claims.
* JS `for` loops whose index advances by a computed step are modelled by
  structurally recursive functions with an explicit fuel argument, with fuel
  chosen `≥` the number of iterations whenever the step is positive (so the
  model is exact there).  When the step is `0` or negative the JS loop never
  terminates (see claim C1); the fuelled model then stops after exhausting
  its fuel, which is noted at each such definition.
* The regular expressions of the source are compiled by hand into character
  scanners implementing the exact JS semantics (ordered alternation, greedy
  quantifiers with backtracking, `String.prototype.split` behaviour); the
  derivation of each scanner from its regex is documented at the definition.
-/

set_option maxRecDepth 10000

namespace RagToolkit

/-! ## Data model (chunking.ts lines 25-51) -/

/-- `chunkingMode` values from `ChunkingOptions`. -/
inductive ChunkingMode where
  | tokens
  | characters
deriving DecidableEq

/-- `ChunkingOptions` (chunking.ts lines 25-32).  All fields are optional in
the source; `none` models an absent field.  `customSeparators` appears in the
copy of the interface inside ApiKeyManager.tsx and is consumed only by
`recursiveTextSplitter`. -/
structure ChunkingOptions where
  chunkSize : Option Nat := none
  overlap : Option Nat := none
  separator : Option String := none
  maxChunks : Option Nat := none
  apiKey : Option String := none
  chunkingMode : Option ChunkingMode := none
  customSeparators : Option (List String) := none
deriving DecidableEq

/-- `Chunk` (chunking.ts lines 34-39). -/
structure Chunk where
  id : Nat
  text : String
  tokens : Nat
  characters : Nat
deriving DecidableEq

/-- The `averageChunkSize` record inside `ChunkingResult.analysis`. -/
structure AverageChunkSize where
  tokens : Nat
  characters : Nat
deriving DecidableEq

/-- The `analysis` record of `ChunkingResult` (chunking.ts lines 43-50). -/
structure ChunkAnalysis where
  totalChunks : Nat
  averageChunkSize : AverageChunkSize
  notes : String
deriving DecidableEq

/-- `ChunkingResult` (chunking.ts lines 41-51). -/
structure ChunkingResult where
  chunks : List Chunk
  analysis : ChunkAnalysis
deriving DecidableEq

/-! ## Tokenizer / metrics (chunking.ts lines 53-61)

`tokenize = (text) => text.split(/\s+/).filter(Boolean)`.  A `split` on the
greedy whitespace class yields exactly the maximal non-whitespace runs plus
possibly empty strings at the ends, and `filter(Boolean)` drops the empty
strings, so `tokenize` returns the maximal non-whitespace runs in order. -/

/-- The JS regex class for whitespace (ECMA-262 WhiteSpace and LineTerminator),
by code point: space, tab, LF, VT, FF, CR, NBSP, U+1680, U+2000-U+200A,
U+2028, U+2029, U+202F, U+205F, U+3000, U+FEFF. -/
def jsWs (c : Char) : Bool :=
  let n := c.toNat
  n == 32 || n == 9 || n == 10 || n == 11 || n == 12 || n == 13 ||
  n == 160 || n == 5760 || (8192 ≤ n && n ≤ 8202) || n == 8232 || n == 8233 ||
  n == 8239 || n == 8287 || n == 12288 || n == 65279

/-- Collect the maximal non-whitespace runs of a character list; `acc` is the
reversed run currently being read. -/
def tokenizeAux : List Char → List Char → List (List Char)
  | [], acc => if acc = [] then [] else [acc.reverse]
  | c :: rest, acc =>
    if jsWs c then
      if acc = [] then tokenizeAux rest []
      else acc.reverse :: tokenizeAux rest []
    else tokenizeAux rest (c :: acc)

/-- `tokenize` (chunking.ts line 54). -/
def tokenize (text : String) : List String :=
  (tokenizeAux text.data []).map String.mk

/-- `countTokens` (chunking.ts line 59). -/
def countTokens (text : String) : Nat :=
  (tokenize text).length

/-- JS `Array.prototype.join(sep)` (used as `join(' ')`, `join('\n')`,
`join('\n\n')` throughout the strategies). -/
def joinSep (sep : String) : List String → String
  | [] => ""
  | [a] => a
  | a :: rest => a ++ sep ++ joinSep sep rest

/-! ## Shared result-building helpers

Every strategy in the source pushes chunks with `id: chunks.length` (or
renumbers `chunk.id = index` at the end); both disciplines make `chunks[i].id
== i`, which this model expresses by building the chunk list from a list of
id-less proto-chunks with `assignIds`. -/

/-- A chunk before its id is assigned. -/
structure ProtoChunk where
  text : String
  tokens : Nat
  characters : Nat
deriving DecidableEq

/-- Number a list of proto-chunks sequentially from 0, as the source's
`id: chunks.length` pushes / `chunk.id = index` renumbering passes do. -/
def assignIds (ps : List ProtoChunk) : List Chunk :=
  ps.enum.map fun ip => { id := ip.1, text := ip.2.text, tokens := ip.2.tokens, characters := ip.2.characters }

/-- Build a proto-chunk the way most strategies do: recounting tokens with
`countTokens` and measuring `characters` as the text length. -/
def mkProto (t : String) : ProtoChunk :=
  { text := t, tokens := countTokens t, characters := t.length }

/-- `Math.round(num / den)` for natural `num`, `den` (JS rounds half up;
for `x ≥ 0`, `Math.round x = ⌊x + 1/2⌋ = ⌊(2num + den) / (2den)⌋`).
For `den = 0` the JS expression is `NaN`; the model returns 0 (all such call
sites in the source are either guarded by `chunks.length > 0` or unreachable,
as noted where used). -/
def natRound (num den : Nat) : Nat :=
  (2 * num + den) / (2 * den)

/-- The `analysis` block shared by the strategies that guard the averages
with `chunks.length > 0 ? … : 0`. -/
def mkAnalysis (chunks : List Chunk) (notes : String) : ChunkAnalysis :=
  let totalTokens := (chunks.map Chunk.tokens).sum
  let totalCharacters := (chunks.map Chunk.characters).sum
  { totalChunks := chunks.length
    averageChunkSize :=
      { tokens := if 0 < chunks.length then natRound totalTokens chunks.length else 0
        characters := if 0 < chunks.length then natRound totalCharacters chunks.length else 0 }
    notes := notes }

/-- Assemble a `ChunkingResult` from proto-chunks and a notes string. -/
def mkResult (ps : List ProtoChunk) (notes : String) : ChunkingResult :=
  let chunks := assignIds ps
  { chunks := chunks, analysis := mkAnalysis chunks notes }

/-! ## Regex scanners and `String.prototype.split` semantics

`String.prototype.split(regexp)` (ES2023 22.1.3.23) tries the regex anchored
at every position `q` from left to right; on a match of positive length it
cuts a segment and resumes after the match.  The position `q = length` is
never probed (the loop runs while `q < size`), and after the loop the final
segment is always pushed, even when empty.  None of the regexes used for
splitting in the source can match the empty string at a position `< length`,
so the empty-match rule of the spec never fires.

A matcher here has type `List Char → List Char → Option Nat`: it receives
the reversed prefix before the cursor (for lookbehinds) and the remaining
suffix, and returns the match length at this position, always `≥ 1`. -/

/-- One pass of the split loop.  `seg` is the reversed current segment.  The
fuel only bounds the recursion; `dataLength + 1` is always enough because
every step consumes at least one character. -/
def jsSplitGo (m : List Char → List Char → Option Nat) :
    Nat → List Char → List Char → List Char → List (List Char)
  | 0, _, rest, seg => [seg.reverse ++ rest]
  | fuel + 1, beforeRev, rest, seg =>
    match rest with
    | [] => [seg.reverse]
    | c :: rest' =>
      match m beforeRev rest with
      | some L => seg.reverse :: jsSplitGo m fuel ((rest.take L).reverse ++ beforeRev) (rest.drop L) []
      | none => jsSplitGo m fuel (c :: beforeRev) rest' (c :: seg)

/-- `s.split(regexp)` for a regex compiled to the matcher `m`. -/
def jsSplit (m : List Char → List Char → Option Nat) (s : String) : List String :=
  (jsSplitGo m (s.data.length + 1) [] s.data []).map String.mk

/-- `s.split(sep)` for a literal string separator.  `split('')` yields the
individual characters (so `""` gives `[]`), matching JS. -/
def jsSplitLit (sep : String) (s : String) : List String :=
  if sep = "" then s.data.map fun c => String.mk [c]
  else jsSplit (fun _ rest => if sep.data.isPrefixOf rest then some sep.data.length else none) s

/-- Index of the last element satisfying `p`, if any. -/
def lastIdxWhere (p : Char → Bool) : List Char → Option Nat
  | [] => none
  | c :: rest =>
    match lastIdxWhere p rest with
    | some i => some (i + 1)
    | none => if p c then some 0 else none

/-- Matcher for `/\n\s*\n/` at the cursor.  The greedy `\s*` takes the
maximal whitespace run after the first `\n` and backtracks until the next
character is `\n`; since `\n` itself is whitespace this selects the **last**
`\n` inside that run (no match if the run has none). -/
def blankMatch (rest : List Char) : Option Nat :=
  match rest with
  | '\n' :: tail =>
    (match lastIdxWhere (· == '\n') (tail.takeWhile jsWs) with
     | some q => some (q + 2)
     | none => none)
  | _ => none

/-- Index of the last adjacent `'\r','\n'` pair inside a list, if any. -/
def lastCrlfIdx : List Char → Option Nat
  | [] => none
  | [_] => none
  | c1 :: c2 :: rest =>
    match lastCrlfIdx (c2 :: rest) with
    | some i => some (i + 1)
    | none => if c1 == '\r' && c2 == '\n' then some 0 else none

/-- Matcher for `/\r\n\s*\r\n/`: after the literal `\r\n` the greedy `\s*`
backtracks to the last `\r\n` pair lying inside the following whitespace run
(both characters are whitespace, so the pair must be inside the run). -/
def crlfMatch (rest : List Char) : Option Nat :=
  match rest with
  | '\r' :: '\n' :: tail =>
    (match lastCrlfIdx (tail.takeWhile jsWs) with
     | some q => some (q + 4)
     | none => none)
  | _ => none

/-- The `[-_*]` class of the horizontal-rule patterns. -/
def hrChar (c : Char) : Bool := c == '-' || c == '_' || c == '*'

/-- Matcher for `/\n\s*[-_*]{3,}\s*\n/`.  The first greedy `\s*` can only
succeed at its maximal run (rule characters are not whitespace, so shorter
choices put a whitespace character where `[-_*]` is required), then the
`{3,}` run is likewise forced maximal, and the final `\s*\n` selects the
last `\n` of the following whitespace run as in `blankMatch`. -/
def ruleMatch (rest : List Char) : Option Nat :=
  match rest with
  | '\n' :: tail =>
    let p := (tail.takeWhile jsWs).length
    let r := ((tail.drop p).takeWhile hrChar).length
    if 3 ≤ r then
      match lastIdxWhere (· == '\n') ((tail.drop (p + r)).takeWhile jsWs) with
      | some q => some (p + r + q + 2)
      | none => none
    else none
  | _ => none

/-- Matcher for `/\n\s*#{1,6}\s+/`.  As above the leading `\s*` is forced
maximal; the greedy `#{1,6}` must swallow the whole `#` run (a shorter choice
leaves a `#` where `\s` is required), so it matches only when that run has
length 1-6; the trailing `\s+` is maximal with nothing after it. -/
def headerMatch (rest : List Char) : Option Nat :=
  match rest with
  | '\n' :: tail =>
    let p := (tail.takeWhile jsWs).length
    let h := ((tail.drop p).takeWhile (· == '#')).length
    if 1 ≤ h && h ≤ 6 then
      let w := ((tail.drop (p + h)).takeWhile jsWs).length
      if 1 ≤ w then some (p + h + w + 1) else none
    else none
  | _ => none

/-- The combined paragraph separator of `paragraphBasedChunking`
(chunking.ts lines 281-289): the four alternatives joined by `|`, tried in
source order at each position. -/
def combinedParaMatch (rest : List Char) : Option Nat :=
  blankMatch rest <|> crlfMatch rest <|> ruleMatch rest <|> headerMatch rest

/-- `String.prototype.trim` (uses the same whitespace class). -/
def trimL (l : List Char) : List Char :=
  ((l.dropWhile jsWs).reverse.dropWhile jsWs).reverse

/-- `s.trim()`. -/
def jsTrim (s : String) : String := String.mk (trimL s.data)

/-- `text.split(/\n\s*\n/).filter(Boolean)`, the paragraph list used by
sentence-based, semantic, heuristic and agentic chunking. -/
def blankParagraphs (s : String) : List String :=
  (jsSplit (fun _ r => blankMatch r) s).filter (· ≠ "")

/-! ## Substring search and global replacement by the empty string -/

/-- Does `pat` occur (as a contiguous sublist) in the list? -/
def containsSubL (pat : List Char) : List Char → Bool
  | [] => pat.isEmpty
  | c :: rest => pat.isPrefixOf (c :: rest) || containsSubL pat rest

/-- Does `pat` occur as a substring of `s`? -/
def containsSub (pat s : String) : Bool := containsSubL pat.data s.data

/-- `s.replace(/pat/g, '')` for a literal, non-empty `pat`: remove the
leftmost occurrence, resume scanning **after** it (the freshly adjacent
characters around a deletion are not rescanned, exactly as in JS).  Each step
consumes at least one character, so fuel `s.length` suffices. -/
def removeAllAux (pat : List Char) : Nat → List Char → List Char
  | 0, s => s
  | fuel + 1, s =>
    match s with
    | [] => []
    | c :: rest =>
      if pat.isPrefixOf s then removeAllAux pat fuel (s.drop pat.length)
      else c :: removeAllAux pat fuel rest

/-- String version of `removeAllAux` with sufficient fuel. -/
def removeAllStr (pat s : String) : String :=
  String.mk (removeAllAux pat.data s.data.length s.data)

/-! ## Sentence-based chunking: placeholder pre/post-processing
(chunking.ts lines 178-191) -/

/-- `\w`. -/
def isWordChar (c : Char) : Bool :=
  ('a' ≤ c && c ≤ 'z') || ('A' ≤ c && c ≤ 'Z') || ('0' ≤ c && c ≤ '9') || c == '_'

/-- `[A-Z]`. -/
def isUpper (c : Char) : Bool := 'A' ≤ c && c ≤ 'Z'

/-- `[0-9]` (`\d`). -/
def isDigit (c : Char) : Bool := '0' ≤ c && c ≤ '9'

/-- The alternation of `/(\b(?:Mr|Mrs|Ms|Dr|Prof)\.\s+)([A-Z])/g`, in source
order (JS tries `Mr` before `Mrs` and backtracks into the next alternative
when the continuation `\.\s+[A-Z]` fails). -/
def titleAbbrs : List String := ["Mr", "Mrs", "Ms", "Dr", "Prof"]

/-- Try the abbreviation alternatives at the cursor; on success return the
replacement text (`$1_PLACEHOLDER_$2`) and the matched length.  The greedy
`\s+` can only succeed at its maximal run (a shorter choice puts a
whitespace character where `[A-Z]` is required). -/
def abbrCapTry (rest : List Char) : List String → Option (List Char × Nat)
  | [] => none
  | abbr :: more =>
    let pd := (abbr ++ ".").data
    if pd.isPrefixOf rest then
      let after := rest.drop pd.length
      let w := (after.takeWhile jsWs).length
      match (after.drop w).head? with
      | some ch =>
        if 1 ≤ w && isUpper ch then
          some (pd ++ after.take w ++ "_PLACEHOLDER_".data ++ [ch], pd.length + w + 1)
        else abbrCapTry rest more
      | none => abbrCapTry rest more
    else abbrCapTry rest more

/-- Global-replace scan for the abbreviation regex; `prev` is the character
before the cursor, for the `\b` assertion (all alternatives start with a word
character, so `\b` holds iff `prev` is absent or a non-word character). -/
def preprocessAbbrGo : Nat → Option Char → List Char → List Char
  | 0, _, rest => rest
  | fuel + 1, prev, rest =>
    match rest with
    | [] => []
    | c :: rest' =>
      let bOk := match prev with
        | some p => !(isWordChar p)
        | none => true
      match (if bOk then abbrCapTry rest titleAbbrs else none) with
      | some (rep, L) => rep ++ preprocessAbbrGo fuel ((rest.take L).getLast?) (rest.drop L)
      | none => c :: preprocessAbbrGo fuel (some c) rest'

/-- One decimal-number match for `/(\d+\.\d+)/g` at the cursor (greedy digit
runs are forced maximal: shortening one puts a digit where `\.` or the end of
the match must be, which changes nothing for a match test followed by
insertion, since the regex has no continuation). -/
def decMatch (rest : List Char) : Option (List Char × Nat) :=
  let d1 := rest.takeWhile isDigit
  if 1 ≤ d1.length then
    match rest.drop d1.length with
    | '.' :: tail2 =>
      let d2 := tail2.takeWhile isDigit
      if 1 ≤ d2.length then
        some (d1 ++ '.' :: (d2 ++ "_DECIMAL_".data), d1.length + 1 + d2.length)
      else none
    | _ => none
  else none

/-- Global-replace scan for the decimal regex (replacement `$1_DECIMAL_`). -/
def preprocessDecGo : Nat → List Char → List Char
  | 0, rest => rest
  | fuel + 1, rest =>
    match rest with
    | [] => []
    | c :: rest' =>
      match decMatch rest with
      | some (rep, L) => rep ++ preprocessDecGo fuel (rest.drop L)
      | none => c :: preprocessDecGo fuel rest'

/-- `preprocessText` (chunking.ts lines 179-184): protect title abbreviations
and decimal numbers with placeholder insertions, in that order. -/
def preprocessText (s : String) : String :=
  let s1 := preprocessAbbrGo (s.data.length + 1) none s.data
  String.mk (preprocessDecGo (s1.length + 1) s1)

/-- `postprocessText` (chunking.ts lines 186-191): strip every occurrence of
`_PLACEHOLDER_`, then of `_DECIMAL_`, via `replace(/…/g, '')`. -/
def postprocessText (s : String) : String :=
  removeAllStr "_DECIMAL_" (removeAllStr "_PLACEHOLDER_" s)

/-! ## The sentence-boundary regex (chunking.ts line 176)

`/(?<!\b(?:Mr|Mrs|Ms|Dr|Prof|Rev|Col|Gen|Lt|Cmdr|Sgt|Capt|Maj|Sen|Rep|Hon|etc|vs|i\.e|e\.g)\.)(?<!\w\.\w.)(?<=\.|\?|!|。|？|！)(?:\s+|$)(?=[A-Z"'([{<]|\s*$)/g`

The match body is `(?:\s+|$)` guarded by three lookbehinds and one
lookahead.  When used by `split` the `$` branch never fires (positions at
the very end are not probed), and the greedy `\s+` can only succeed with its
maximal run: for a shorter run the lookahead would inspect a whitespace
character (not in `[A-Z"'([{<]`) followed eventually by a non-whitespace
character (defeating `\s*$`), unless the run extends to the end of the
string, in which case the maximal run itself satisfies `\s*$`/end. -/

/-- The abbreviation list of the negative lookbehind, as written. -/
def sentenceAbbrs : List String :=
  ["Mr", "Mrs", "Ms", "Dr", "Prof", "Rev", "Col", "Gen", "Lt", "Cmdr",
   "Sgt", "Capt", "Maj", "Sen", "Rep", "Hon", "etc", "vs", "i.e", "e.g"]

/-- The sentence-ending punctuation of the positive lookbehind. -/
def endPunct : List Char := ['.', '?', '!', '。', '？', '！']

/-- `(?<!\b(?:ABBRS)\.)`: rejected iff the text before the cursor ends with
one of the abbreviations followed by `.`, with a word boundary before the
abbreviation (every alternative starts with a word character, so the
boundary holds iff the preceding character is absent or a non-word one). -/
def abbrBehind (beforeRev : List Char) : Bool :=
  sentenceAbbrs.any fun abbr =>
    let pd := '.' :: abbr.data.reverse
    pd.isPrefixOf beforeRev &&
      (match beforeRev.drop pd.length with
       | [] => true
       | p :: _ => !(isWordChar p))

/-- `(?<!\w\.\w.)`: rejected iff the four characters before the cursor are a
word character, a dot, a word character, and any character other than a line
terminator (`.` excludes LF, CR, U+2028, U+2029). -/
def wDotBehind (beforeRev : List Char) : Bool :=
  match beforeRev with
  | b1 :: b2 :: b3 :: b4 :: _ =>
    isWordChar b4 && b3 == '.' && isWordChar b2 &&
      !(b1 == '\n' || b1 == '\r' || b1.toNat == 8232 || b1.toNat == 8233)
  | _ => false

/-- All three lookbehind assertions at the cursor. -/
def sentenceLookbehindOk (beforeRev : List Char) : Bool :=
  match beforeRev with
  | [] => false
  | pc :: _ => pc ∈ endPunct && !(abbrBehind beforeRev) && !(wDotBehind beforeRev)

/-- `[A-Z"'([{<]`, the first lookahead alternative. -/
def sentenceAheadChar (c : Char) : Bool :=
  isUpper c || c == '"' || c.toNat == 39 || c == '(' || c == '[' ||
  c.toNat == 123 || c == '<'

/-- The sentence-boundary matcher as used by `split` (the `$` branch of the
body cannot fire there, see the section comment): take the maximal
whitespace run (at least one character) and require the next character to be
in the lookahead class, or the end of the string (which satisfies `\s*$`). -/
def sentenceMatch (beforeRev rest : List Char) : Option Nat :=
  if sentenceLookbehindOk beforeRev then
    let w := (rest.takeWhile jsWs).length
    if 1 ≤ w then
      match rest.drop w with
      | [] => some w
      | c :: _ => if sentenceAheadChar c then some w else none
    else none
  else none

/-- Number of matches found by `text.match(sentenceRegex)` with the global
flag (used by agentic chunking): the scan of `sentenceMatch` positions plus
the possible empty match at the very end via the `$` branch, whose lookahead
`\s*$` is trivially true there. -/
def countSentGo : Nat → List Char → List Char → Nat
  | 0, _, _ => 0
  | fuel + 1, beforeRev, rest =>
    match rest with
    | [] => if sentenceLookbehindOk beforeRev then 1 else 0
    | c :: rest' =>
      match sentenceMatch beforeRev rest with
      | some L => 1 + countSentGo fuel ((rest.take L).reverse ++ beforeRev) (rest.drop L)
      | none => countSentGo fuel (c :: beforeRev) rest'

/-- `(text.match(sentenceRegex) || []).length`. -/
def countSentenceMatches (s : String) : Nat :=
  countSentGo (s.data.length + 1) [] s.data

/-- `paragraph.match(/[.!?。？！]/)` as a Boolean test. -/
def containsPunct (p : String) : Bool :=
  p.data.any fun c => c ∈ endPunct

/-- Sentence extraction of `sentenceBasedChunking` (chunking.ts lines
193-224): preprocess, split into paragraphs on blank lines, within each
paragraph either keep it whole (no terminal punctuation, or a split that
yields nothing) or split into trimmed, postprocessed, non-empty sentences;
if nothing at all survives, the raw `text` is the single sentence. -/
def extractSentences (text : String) : List String :=
  let processedText := preprocessText text
  let paragraphs := blankParagraphs processedText
  let allSentences := (paragraphs.map fun paragraph =>
    if !(containsPunct paragraph) then [postprocessText paragraph]
    else
      let ss := ((jsSplit sentenceMatch paragraph).map
        fun s => postprocessText (jsTrim s)).filter (· ≠ "")
      if ss = [] then [postprocessText paragraph] else ss).flatten
  if allSentences = [] then [text] else allSentences

/-! ## Step sizes of the windowed strategies -/

/-- `overlap > 0 ? chunkSize - overlap : chunkSize` (chunking.ts lines 88,
124 and 229).  Computed in `Int`: the JS subtraction goes negative when
`overlap > chunkSize`, and is 0 when `overlap = chunkSize`; in either case
the corresponding `for (i …; i += step)` loop never advances. -/
def stepUnclamped (chunkSize overlap : Nat) : Int :=
  if 0 < overlap then (chunkSize : Int) - overlap else (chunkSize : Int)

/-- `Math.ceil(a / b)` for naturals (`b = 0`, which would give `Infinity`
in JS, is never reached at the call sites and yields 0 here). -/
def ceilDiv (a b : Nat) : Nat := (a + b - 1) / b

/-- `Math.max(10, chunkSize)` (chunking.ts line 1173). -/
def fixedCharsEffSize (cs : Nat) : Nat := max 10 cs

/-- `Math.min(effectiveChunkSize - 1, Math.max(0, overlap))` (line 1174);
`overlap` is a natural here so `Math.max 0` is the identity. -/
def fixedCharsEffOverlap (cs ov : Nat) : Nat :=
  min (fixedCharsEffSize cs - 1) ov

/-- `step = effectiveChunkSize - effectiveOverlap` (line 1177). -/
def fixedCharsStep (cs ov : Nat) : Nat :=
  fixedCharsEffSize cs - fixedCharsEffOverlap cs ov

/-- `Math.max(1, chunkSize - overlap)` (chunking.ts lines 378 and 424); the
saturating `Nat` subtraction followed by `max 1` agrees with the JS
computation on integers. -/
def slidingStep (cs ov : Nat) : Nat := max 1 (cs - ov)

/-- `estimatedChunks = Math.ceil(length / step)` (lines 382, 428). -/
def slidingEstimated (len step : Nat) : Nat := ceilDiv len step

/-- `adjustedStep = estimatedChunks > maxChunks ? Math.ceil(length /
maxChunks) : step` with the local constant `maxChunks = 100` (lines
381-383, 427-429). -/
def slidingAdjustedStep (len cs ov : Nat) : Nat :=
  if 100 < slidingEstimated len (slidingStep cs ov) then ceilDiv len 100
  else slidingStep cs ov

/-! ## Fixed-length chunking (chunking.ts lines 68-156) and its
boundary-snapping character variant (lines 1161-1270) -/

/-- Matcher for `/[.!?]\s+/g` (greedy `\s+` is maximal: there is no
continuation to backtrack for). -/
def sentBreakMatch (rest : List Char) : Option Nat :=
  match rest with
  | c :: tail =>
    if c ∈ ['.', '!', '?'] then
      let w := (tail.takeWhile jsWs).length
      if 1 ≤ w then some (1 + w) else none
    else none
  | [] => none

/-- Matcher for `/\n/g`. -/
def lineBreakMatch (rest : List Char) : Option Nat :=
  match rest with
  | '\n' :: _ => some 1
  | _ => none

/-- Matcher for `/\s+/g` (maximal whitespace run). -/
def wsRunMatch (rest : List Char) : Option Nat :=
  let w := (rest.takeWhile jsWs).length
  if 1 ≤ w then some w else none

/-- End offset of the **last** match of `m` in the list, scanning
non-overlapping matches from the left as `matchAll` does. -/
def lastMatchEnd (m : List Char → Option Nat) : Nat → List Char → Nat → Option Nat
  | 0, _, _ => none
  | fuel + 1, rest, off =>
    match rest with
    | [] => none
    | _ :: rest' =>
      match m rest with
      | some L =>
        (match lastMatchEnd m fuel (rest.drop L) (off + L) with
         | some e => some e
         | none => some (off + L))
      | none => lastMatchEnd m fuel rest' (off + 1)

/-- `findBreakPoint` (chunking.ts lines 1182-1224): look back up to
`Math.ceil(effectiveChunkSize * 0.2)` characters from the target position
for, in priority order, a sentence break, a paragraph break, a line break,
then a word break, and return the position just after the last such match
(the double product `ecs * 0.2` rounds to `ecs / 5` exactly for every value
arising in this file's concrete inputs). -/
def findBreakPoint (cl : List Char) (ecs targetPos : Nat) : Nat :=
  let searchRange := min targetPos (ceilDiv ecs 5)
  let minPos := targetPos - searchRange
  let searchText := (cl.drop minPos).take searchRange
  let fuel := searchText.length + 1
  match lastMatchEnd sentBreakMatch fuel searchText 0 with
  | some e => minPos + e
  | none =>
  match lastMatchEnd (fun r => blankMatch r) fuel searchText 0 with
  | some e => minPos + e
  | none =>
  match lastMatchEnd lineBreakMatch fuel searchText 0 with
  | some e => minPos + e
  | none =>
  match lastMatchEnd wsRunMatch fuel searchText 0 with
  | some e => minPos + e
  | none => targetPos

/-- `text.substring(a, b)` (JS swaps the endpoints when `b < a`). -/
def jsSubstring (cl : List Char) (a b : Nat) : List Char :=
  (cl.drop (min a b)).take (max a b - min a b)

/-- The naive character loop of `fixedLengthChunking` (lines 90-102).  The
break test `chunkText.length < chunkSize / 4 && chunks.length > 0` is, on
integers, `4 * length < chunkSize` (the division is a JS double), and
`chunks.length > 0` is tracked by `hasChunks`.  With `step = 0` (i.e.
`overlap ≥ chunkSize`, see C1) the JS loop never terminates; this fuelled
model then stops after `fuel` iterations. -/
def fixedCharGo (cl : List Char) (cs step : Nat) : Nat → Nat → Bool → List ProtoChunk
  | 0, _, _ => []
  | fuel + 1, i, hasChunks =>
    if i < cl.length then
      let w := (cl.drop i).take cs
      if 4 * w.length < cs ∧ hasChunks = true then []
      else mkProto (String.mk w) :: fixedCharGo cl cs step fuel (i + step) true
    else []

/-- The token loop of `fixedLengthChunking` (lines 126-139); the pushed
chunk's `tokens` field is `chunkTokens.length` (not a recount).  Same
remarks on the break test and on fuel as `fixedCharGo`. -/
def fixedTokenGo (toks : List String) (cs step : Nat) : Nat → Nat → Bool → List ProtoChunk
  | 0, _, _ => []
  | fuel + 1, i, hasChunks =>
    if i < toks.length then
      let w := (toks.drop i).take cs
      if 4 * w.length < cs ∧ hasChunks = true then []
      else
        let t := joinSep " " w
        { text := t, tokens := w.length, characters := t.length } ::
          fixedTokenGo toks cs step fuel (i + step) true
    else []

/-- The loop of `fixedLengthCharsChunking` (lines 1227-1254): window end
snapped backward by `findBreakPoint` except at the end of the text, break
on a sub-25% trailing fragment, optional separator appended, hard stop at
`maxChunks`.  `step ≥ 1` always (clamped overlap), so fuel `length + 1`
makes the model exact. -/
def fixedCharsGo (cl : List Char) (ecs step mc : Nat) (sep : String) :
    Nat → Nat → Bool → Nat → List ProtoChunk
  | 0, _, _, _ => []
  | fuel + 1, i, hasChunks, emitted =>
    if i < cl.length then
      let endPos0 := min (i + ecs) cl.length
      let endPos := if endPos0 < cl.length then findBreakPoint cl ecs endPos0 else endPos0
      let w := jsSubstring cl i endPos
      if 4 * w.length < ecs ∧ hasChunks = true then []
      else
        let ft := if sep ≠ "" then String.mk w ++ sep else String.mk w
        mkProto ft ::
          (if 0 < mc ∧ mc ≤ emitted + 1 then []
           else fixedCharsGo cl ecs step mc sep fuel (i + step) true (emitted + 1))
    else []

/-- `fixedLengthCharsChunking` (chunking.ts lines 1161-1270). -/
def fixedLengthCharsChunking (text : String) (opts : ChunkingOptions) : ChunkingResult :=
  let cs := opts.chunkSize.getD 500
  let ov := opts.overlap.getD 50
  let mc := opts.maxChunks.getD 0
  let sep := opts.separator.getD ""
  let ecs := fixedCharsEffSize cs
  let eov := fixedCharsEffOverlap cs ov
  let step := fixedCharsStep cs ov
  let protos := fixedCharsGo text.data ecs step mc sep (text.data.length + 1) 0 false 0
  mkResult protos
    ("Text was divided into " ++
      (toString protos.length ++ " chunks of approximately " ++ toString ecs ++
        " characters each" ++
        (if 0 < eov then
          " with " ++ toString eov ++ " characters of overlap between consecutive chunks"
         else "") ++
        ". Smart boundary detection was used to preserve natural text breaks."))

/-- `fixedLengthChunking` (chunking.ts lines 68-156).  Mode resolution
(lines 76-77): explicit `characters` mode redirects to the boundary-snapping
variant; otherwise `chunkSize > 200` (without explicit `tokens`) selects the
naive character path; else the token path. -/
def fixedLengthChunking (text : String) (opts : ChunkingOptions) : ChunkingResult :=
  let cs := opts.chunkSize.getD 100
  let ov := opts.overlap.getD 0
  let mode := opts.chunkingMode
  if mode = some ChunkingMode.characters ∨ (mode ≠ some ChunkingMode.tokens ∧ 200 < cs) then
    if mode = some ChunkingMode.characters then fixedLengthCharsChunking text opts
    else
      let step := (stepUnclamped cs ov).toNat
      let protos := fixedCharGo text.data cs step (text.data.length + 1) 0 false
      mkResult protos
        ("Text was divided into " ++
          (toString protos.length ++ " chunks of approximately " ++ toString cs ++
            " characters each" ++
            (if 0 < ov then
              " with " ++ toString ov ++ " characters of overlap between consecutive chunks"
             else "") ++ "."))
  else
    let toks := tokenize text
    let step := (stepUnclamped cs ov).toNat
    let protos := fixedTokenGo toks cs step (toks.length + 1) 0 false
    mkResult protos
      ("Text was divided into " ++
        (toString protos.length ++ " chunks of approximately " ++ toString cs ++
          " tokens each" ++
          (if 0 < ov then
            " with " ++ toString ov ++ " tokens of overlap between consecutive chunks"
           else "") ++ "."))

/-! ## Sentence-based chunking (chunking.ts lines 164-266) -/

/-- `allSentences.slice(0, maxSentences)` with `maxSentences = maxChunks > 0
? maxChunks * chunkSize : allSentences.length` (lines 232-233). -/
def sentencesToProcess (text : String) (opts : ChunkingOptions) : List String :=
  let cs := opts.chunkSize.getD 5
  let mc := opts.maxChunks.getD 0
  let all := extractSentences text
  all.take (if 0 < mc then mc * cs else all.length)

/-- The grouping loop of `sentenceBasedChunking` (lines 236-250).  The break
test `chunkSentences.length < Math.max(1, chunkSize / 4)` is, on integers,
`4 * length < max 4 chunkSize`.  With `step = 0` (`overlap ≥ chunkSize`) the
JS loop never terminates and the fuelled model stops at its fuel. -/
def sentenceGo (sents : List String) (cs step : Nat) : Nat → Nat → Bool → List ProtoChunk
  | 0, _, _ => []
  | fuel + 1, i, hasChunks =>
    if i < sents.length then
      let w := (sents.drop i).take cs
      if 4 * w.length < max 4 cs ∧ hasChunks = true then []
      else mkProto (joinSep " " w) :: sentenceGo sents cs step fuel (i + step) true
    else []

/-- `sentenceBasedChunking` (chunking.ts lines 164-266). -/
def sentenceBasedChunking (text : String) (opts : ChunkingOptions) : ChunkingResult :=
  let cs := opts.chunkSize.getD 5
  let ov := opts.overlap.getD 0
  let mc := opts.maxChunks.getD 0
  let all := extractSentences text
  let step := (stepUnclamped cs ov).toNat
  let toProcess := sentencesToProcess text opts
  let protos := sentenceGo toProcess cs step (toProcess.length + 1) 0 false
  mkResult protos
    ("Text was split into " ++
      (toString all.length ++ " sentences" ++
        (if 0 < ov then
          " with " ++ toString ov ++ " sentences of overlap between chunks"
         else "") ++
        ", then grouped into chunks of about " ++ toString cs ++ " sentences each" ++
        (if 0 < mc then ", limited to " ++ toString mc ++ " chunks maximum" else "") ++
        "."))

/-! ## Paragraph-based chunking (chunking.ts lines 273-357) -/

/-- The paragraph list: split on the combined separator, trim, drop empty
segments (lines 292-294). -/
def paragraphsOf (text : String) : List String :=
  ((jsSplit (fun _ r => combinedParaMatch r) text).map jsTrim).filter (· ≠ "")

/-- The loop of `paragraphBasedChunking` (lines 315-332).  Break test
`chunkParagraphs.length < Math.max(1, adjusted / 3)` is `3 * length <
max 3 adjusted` on integers; hard stop once `maxChunks` chunks exist.
The step is `≥ 1` here (see `paragraphBasedChunking`), so fuel
`length + 1` makes the model exact. -/
def paraGo (ps : List String) (adjusted step mc : Nat) : Nat → Nat → Bool → Nat → List ProtoChunk
  | 0, _, _, _ => []
  | fuel + 1, i, hasChunks, emitted =>
    if i < ps.length then
      let w := (ps.drop i).take adjusted
      if 3 * w.length < max 3 adjusted ∧ hasChunks = true then []
      else
        mkProto (joinSep "\n\n" w) ::
          (if 0 < mc ∧ mc ≤ emitted + 1 then []
           else paraGo ps adjusted step mc fuel (i + step) true (emitted + 1))
    else []

/-- `paragraphBasedChunking` (chunking.ts lines 273-357). -/
def paragraphBasedChunking (text : String) (opts : ChunkingOptions) : ChunkingResult :=
  let mc := opts.maxChunks.getD 0
  let ov := opts.overlap.getD 0
  let cs := opts.chunkSize.getD 0
  let ps0 := paragraphsOf text
  let ps := if ps0 = [] then [text] else ps0
  let ppc := if 0 < cs then cs else 3
  let adjusted := if 0 < mc ∧ mc * ppc < ps.length then ceilDiv ps.length mc else ppc
  -- step = overlap > 0 ? Math.max(1, adjusted - overlap) : adjusted  (line 312)
  let step := if 0 < ov then max 1 (adjusted - ov) else adjusted
  let protos := paraGo ps adjusted step mc (ps.length + 1) 0 false 0
  mkResult protos
    ("Text was split into " ++
      (toString ps.length ++ " paragraphs" ++
        (if 0 < ov then
          ", with " ++ toString ov ++ " paragraphs of overlap between chunks"
         else "") ++
        (if 0 < mc ∧ protos.length = mc then
          ", limited to " ++ toString mc ++ " chunks maximum"
         else "") ++
        ", resulting in " ++ toString protos.length ++ " chunks with approximately " ++
        toString adjusted ++ " paragraphs per chunk."))

/-! ## Sliding-window chunking (chunking.ts lines 364-466) -/

/-- The character loop (lines 385-402): window clipped to the text end, break
on a sub-25% trailing fragment, hard stop at the local `maxChunks = 100`. -/
def slidingCharGo (cl : List Char) (cs astep : Nat) : Nat → Nat → Bool → Nat → List ProtoChunk
  | 0, _, _, _ => []
  | fuel + 1, i, hasChunks, emitted =>
    if i < cl.length then
      let e := min (i + cs) cl.length
      let w := (cl.drop i).take (e - i)
      if 4 * w.length < cs ∧ hasChunks = true then []
      else
        mkProto (String.mk w) ::
          (if 100 ≤ emitted + 1 then []
           else slidingCharGo cl cs astep fuel (i + astep) true (emitted + 1))
    else []

/-- The token loop (lines 431-449); the pushed `tokens` field is
`windowTokens.length`. -/
def slidingTokenGo (toks : List String) (cs astep : Nat) : Nat → Nat → Bool → Nat → List ProtoChunk
  | 0, _, _, _ => []
  | fuel + 1, i, hasChunks, emitted =>
    if i < toks.length then
      let e := min (i + cs) toks.length
      let w := (toks.drop i).take (e - i)
      if 4 * w.length < cs ∧ hasChunks = true then []
      else
        let t := joinSep " " w
        { text := t, tokens := w.length, characters := t.length } ::
          (if 100 ≤ emitted + 1 then []
           else slidingTokenGo toks cs astep fuel (i + astep) true (emitted + 1))
    else []

/-- `slidingWindowChunking` (chunking.ts lines 364-466).  The mode heuristic
is `chunkSize > 200 ⇒ characters` (line 371); `adjustedStep ≥ 1` whenever
the loop runs (the length is then positive), so the fuel is sufficient. -/
def slidingWindowChunking (text : String) (opts : ChunkingOptions) : ChunkingResult :=
  let cs := opts.chunkSize.getD 100
  let ov := opts.overlap.getD 50
  if 200 < cs then
    let cl := text.data
    let astep := slidingAdjustedStep cl.length cs ov
    let protos := slidingCharGo cl cs astep (cl.length + 1) 0 false 0
    mkResult protos
      ("Sliding window created " ++
        (toString protos.length ++ " chunks with window size " ++ toString cs ++
          " characters and " ++ toString ov ++
          " characters of overlap (step size: " ++ toString astep ++ ")."))
  else
    let toks := tokenize text
    let astep := slidingAdjustedStep toks.length cs ov
    let protos := slidingTokenGo toks cs astep (toks.length + 1) 0 false 0
    mkResult protos
      ("Sliding window created " ++
        (toString protos.length ++ " chunks with window size " ++ toString cs ++
          " tokens and " ++ toString ov ++
          " tokens of overlap (step size: " ++ toString astep ++ ")."))

/-! ## Recursive hierarchical splitter
(ApiKeyManager.tsx lines 906-1052; its `fixedLengthChunking` fallback,
lines 102-167 of the same file, is character-for-character the same function
as the one in chunking.ts modelled above) -/

/-- The size test `(chunkingMode === 'characters' && length <= chunkSize) ||
(chunkingMode === 'tokens' && countTokens <= chunkSize)`. -/
def recFits (mode : ChunkingMode) (cs : Nat) (t : String) : Bool :=
  match mode with
  | ChunkingMode.characters => t.length ≤ cs
  | ChunkingMode.tokens => countTokens t ≤ cs

/-- The default separator cascade (lines 917-924). -/
def defaultSeparators : List String := ["\n\n", "\n", ". ", ", ", " ", ""]

/-- `recursiveSplit` (lines 925-966), structurally recursive on the
separator list.  Note the source's final `return segments` is unreachable:
when control passes the first `if`, the second one's condition
`segments.length <= 1 || !every(fits)` is its negation's negation. -/
def recursiveSplit (mode : ChunkingMode) (cs : Nat) : List String → String → List String
  | [], t => [t]
  | sep :: rest, t =>
    if recFits mode cs t then [t]
    else
      let segments := (jsSplitLit sep t).filter fun s => 0 < (jsTrim s).length
      if 1 < segments.length ∧ (∀ seg ∈ segments, recFits mode cs seg = true) then segments
      else
        (segments.map fun seg =>
          if recFits mode cs seg then [seg]
          else recursiveSplit mode cs rest seg).flatten

/-- `mergeSmallChunks` (lines 967-991): greedy left merge while the running
size (accumulated, not recounted) stays within the budget; the glue is
`'. '` unless the left part already ends with a period.  The final
`if (currentChunk)` drops an empty final accumulator (JS truthiness). -/
def recMergeGo (mode : ChunkingMode) (cs : Nat) : List String → String → Nat → List String
  | [], cur, _ => if cur ≠ "" then [cur] else []
  | next :: more, cur, curSize =>
    let nextSize := match mode with
      | ChunkingMode.characters => next.length
      | ChunkingMode.tokens => countTokens next
    if curSize + nextSize ≤ cs then
      recMergeGo mode cs more (cur ++ (if cur.endsWith "." then " " else ". ") ++ next) (curSize + nextSize)
    else cur :: recMergeGo mode cs more next nextSize

/-- `mergeSmallChunks` entry (early return for lists of length ≤ 1). -/
def mergeSmallChunks (mode : ChunkingMode) (cs : Nat) (chunks : List String) : List String :=
  match chunks with
  | [] => []
  | [c] => [c]
  | c :: more =>
    recMergeGo mode cs more c
      (match mode with
       | ChunkingMode.characters => c.length
       | ChunkingMode.tokens => countTokens c)

/-- `applyOverlap` (lines 992-1019): prepend to every chunk except the first
a trailing slice of the **original** previous chunk, glued with the same
period-aware separator. -/
def applyOverlap (mode : ChunkingMode) (ovSize : Nat) (chunks : List String) : List String :=
  if chunks.length ≤ 1 ∨ ovSize = 0 then chunks
  else
    (chunks.zip ((none : Option String) :: chunks.map some)).map fun cp =>
      match cp.2 with
      | none => cp.1
      | some prevChunk =>
        let overlapText :=
          match mode with
          | ChunkingMode.characters =>
            if ovSize < prevChunk.length then
              String.mk (prevChunk.data.drop (prevChunk.length - ovSize))
            else prevChunk
          | ChunkingMode.tokens =>
            let prevTokens := tokenize prevChunk
            if ovSize < prevTokens.length then
              joinSep " " (prevTokens.drop (prevTokens.length - ovSize))
            else prevChunk
        overlapText ++ (if overlapText.endsWith "." then " " else ". ") ++ cp.1

/-- `recursiveTextSplitter` (ApiKeyManager.tsx lines 906-1052), success
path.  The body is total here, so the `try` never throws in the model; the
`catch` branch (line 1051) is modelled separately by
`recursiveSplitterFallback`. -/
def recursiveTextSplitter (text : String) (opts : ChunkingOptions) : ChunkingResult :=
  let cs := opts.chunkSize.getD 500
  let ov := opts.overlap.getD 50
  let mc := opts.maxChunks.getD 0
  let mode := opts.chunkingMode.getD ChunkingMode.characters
  let seps := opts.customSeparators.getD defaultSeparators
  let t1 := recursiveSplit mode cs seps text
  let t2 := mergeSmallChunks mode cs t1
  let t3 := if 0 < ov then applyOverlap mode ov t2 else t2
  let t4 := if 0 < mc ∧ mc < t3.length then t3.take mc else t3
  let protos := t4.map mkProto
  mkResult protos
    ("Text was recursively split into " ++
      (toString protos.length ++ " chunks of approximately " ++ toString cs ++ " " ++
        (match mode with
         | ChunkingMode.characters => "characters"
         | ChunkingMode.tokens => "tokens") ++ " each" ++
        (if 0 < ov then
          " with " ++ toString ov ++ " " ++
            (match mode with
             | ChunkingMode.characters => "characters"
             | ChunkingMode.tokens => "tokens") ++ " of overlap"
         else "") ++
        ", preserving natural text boundaries."))

/-- The `catch` branch of `recursiveTextSplitter` (ApiKeyManager.tsx lines
1049-1051): on any internal exception the function returns
`fixedLengthChunking(text, options)` unchanged. -/
def recursiveSplitterFallback (text : String) (opts : ChunkingOptions) : ChunkingResult :=
  fixedLengthChunking text opts

/-! ## Heuristic semantic chunking (chunking.ts lines 799-916) -/

/-- `/^#{1,6}\s+/.test(line)`: the greedy `#{1,6}` must take the whole run
of `#` (a shorter choice faces another `#` where `\s` is required), so the
test holds iff the leading `#` run has length 1-6 and is followed by a
whitespace character. -/
def headerLineTest (l : List Char) : Bool :=
  let h := (l.takeWhile (· == '#')).length
  1 ≤ h && h ≤ 6 &&
    (match (l.drop h).head? with
     | some c => jsWs c
     | none => false)

/-- `/^[-_*]{3,}\s*$/.test(line)`: maximal `[-_*]` run of length ≥ 3
followed only by whitespace. -/
def ruleLineTest (l : List Char) : Bool :=
  let r := (l.takeWhile hrChar).length
  3 ≤ r && (l.drop r).all jsWs

/-- `/^\s*1\.\s+/.test(line)`: leading whitespace, then `1.`, then at least
one whitespace character. -/
def numberedLineTest (l : List Char) : Bool :=
  match l.dropWhile jsWs with
  | '1' :: '.' :: c :: _ => jsWs c
  | _ => false

/-- The boundary-collection pass of `heuristicSemanticChunking` (lines
817-840): line indices of headers, rules, numbered-list starts, and blank
lines strictly between two non-blank lines. -/
def heuristicBoundaries (lines : List String) : List Nat :=
  [0] ++ ((List.range lines.length).filter fun idx =>
    let line := (lines.getD idx "").data
    if headerLineTest line then true
    else if ruleLineTest line then true
    else if numberedLineTest line then true
    else
      jsTrim (lines.getD idx "") = "" ∧ 0 < idx ∧ idx + 1 < lines.length ∧
        jsTrim (lines.getD (idx - 1) "") ≠ "" ∧ jsTrim (lines.getD (idx + 1) "") ≠ "") ++
  [lines.length]

/-- The raw chunks between consecutive boundaries, skipping spans shorter
than 2 lines (lines 846-862). -/
def heuristicRawChunks (lines : List String) (bs : List Nat) : List ProtoChunk :=
  ((bs.zip bs.tail).map fun se =>
    if se.2 - se.1 < 2 then []
    else [mkProto (joinSep "\n" ((lines.drop se.1).take (se.2 - se.1)))]).flatten

/-- The small-chunk merge of lines 870-890: chunks under 20 tokens are
folded into the running chunk (newline glue, sizes accumulated, not
recounted); the running chunk is flushed when a big chunk arrives and at
the end. -/
def heuristicMergeGo : List ProtoChunk → ProtoChunk → List ProtoChunk
  | [], cur => [cur]
  | p :: more, cur =>
    if p.tokens < 20 then
      heuristicMergeGo more
        { text := cur.text ++ "\n" ++ p.text, tokens := cur.tokens + p.tokens,
          characters := cur.characters + p.characters + 1 }
    else cur :: heuristicMergeGo more p

/-- `heuristicSemanticChunking` (chunking.ts lines 799-916). -/
def heuristicSemanticChunking (text : String) (opts : ChunkingOptions) : ChunkingResult :=
  let mc := opts.maxChunks.getD 0
  let paragraphs := blankParagraphs text
  if paragraphs.length ≤ 1 then paragraphBasedChunking text opts
  else
    let lines := jsSplitLit "\n" text
    let bs := heuristicBoundaries lines
    let rawChunks := heuristicRawChunks lines bs
    match rawChunks with
    | [] => paragraphBasedChunking text opts
    | first :: more =>
      let merged := heuristicMergeGo more first
      let finalProtos := if 0 < mc ∧ mc < merged.length then merged.take mc else merged
      mkResult finalProtos
        ("Semantic-like chunking identified " ++
          (toString (bs.length - 1) ++
            " potential section boundaries and created " ++ toString finalProtos.length ++
            " chunks based on document structure and content."))

/-! ## Semantic (embedding-based) chunking (chunking.ts lines 473-793)

`Math.sqrt` is an oracle `sqrt : ℚ → ℚ`; the external provider is an oracle
`provider : String → Option (List ℚ)` where `none` stands for a fetch that
does not succeed **or** a malformed payload (both flow into the `catch` of
`getOpenAIEmbeddings`).  Exceptions thrown inside the `try` of
`semanticChunking` (only `cosineSimilarity`'s length check can throw in this
body) are threaded with `Except`. -/

/-- `cosineSimilarity` (chunking.ts lines 504-524): throws on a length
mismatch, returns 0 when either accumulated square norm is 0 (before any
square root is taken), and otherwise divides by the product of the roots. -/
def cosineSimilarityE (sqrt : ℚ → ℚ) (a b : List ℚ) : Except String ℚ :=
  if a.length ≠ b.length then .error "Vectors must have the same length"
  else
    let dotProduct := (a.zip b).foldl (fun s p => s + p.1 * p.2) 0
    let normA := a.foldl (fun s x => s + x * x) 0
    let normB := b.foldl (fun s x => s + x * x) 0
    if normA = 0 ∨ normB = 0 then .ok 0
    else .ok (dotProduct / (sqrt normA * sqrt normB))

/-- `getOpenAIEmbeddings` (chunking.ts lines 473-499): the entire fetch is
wrapped in `try`; a failed request or an invalid payload is caught and
replaced by `Array(1536).fill(0)` — a zero vector, **not** an exception. -/
def getOpenAIEmbeddings (provider : String → Option (List ℚ)) (text : String) : List ℚ :=
  match provider text with
  | some v => v
  | none => List.replicate 1536 0

/-- `Math.round` on a rational (JS rounds half toward `+∞`:
`round x = ⌊x + 1/2⌋`, also for negative arguments). -/
def qRound (x : ℚ) : Int := ⌊x + 1 / 2⌋

/-- `Math.min(...l)` for a non-empty list of naturals (0 for `[]`, which
cannot occur at the call site). -/
def minNat : List Nat → Nat
  | [] => 0
  | x :: xs => xs.foldl min x

/-- A cluster chunk before final assembly (`rawChunks` entries, lines
658-688). -/
structure RawSemChunk where
  text : String
  indices : List Nat
  embedding : List ℚ
deriving Inhabited

/-- Average inter-member similarity of two clusters (lines 628-639),
reading the precomputed matrix. -/
def clusterAvgSim (M : Nat → Nat → ℚ) (c1 c2 : List Nat) : ℚ :=
  ((c1.map fun i1 => (c2.map fun i2 => M i1 i2).sum).sum) /
    ((c1.length * c2.length : Nat) : ℚ)

/-- The most similar adjacent cluster pair (lines 620-645): running maximum
initialised to `-1`, strict improvement, ties resolved to the earliest
index. -/
def bestAdjacent (M : Nat → Nat → ℚ) (cl : List (List Nat)) : Option Nat :=
  ((List.range (cl.length - 1)).foldl (fun acc i =>
    let avg := clusterAvgSim M (cl.getD i []) (cl.getD (i + 1) [])
    if acc.2 < avg then (some i, avg) else acc)
    ((none : Option Nat), (-1 : ℚ))).1

/-- Merge clusters `i` and `i+1` (lines 648-651). -/
def mergeAt (cl : List (List Nat)) (i : Nat) : List (List Nat) :=
  cl.take i ++ [cl.getD i [] ++ cl.getD (i + 1) []] ++ cl.drop (i + 2)

/-- The agglomerative `while (clusters.length > targetClusters)` loop (lines
619-655); every iteration shortens the list by one, so fuel = the initial
cluster count is exact. -/
def clusterLoop (M : Nat → Nat → ℚ) (target : ℚ) : Nat → List (List Nat) → List (List Nat)
  | 0, cl => cl
  | fuel + 1, cl =>
    if target < (cl.length : ℚ) then
      match bestAdjacent M cl with
      | some i => clusterLoop M target fuel (mergeAt cl i)
      | none => cl
    else cl

/-- The body of the `try` of semantic chunking with a credential, from the
similarity matrix to the final proto-chunk list (chunking.ts lines 544-763),
for a text already known to have `≥ 2` paragraphs.  Exceptions (the length
check in `cosineSimilarity`) propagate via `Except`.  The dynamic threshold
multiplies by the literal `0.8` (the double is `0.8 + 2^-54…`; the exact
`8/10` is used here, a difference only observable on knife-edge inputs) and
the computed `semanticBoundaries` are diagnostic: nothing below reads them,
exactly as in the source. -/
def semanticProtos (sqrt : ℚ → ℚ) (provider : String → Option (List ℚ))
    (text : String) (mc ov : Nat) : Except String (List ProtoChunk) := do
  let paragraphs := blankParagraphs text
  let n := paragraphs.length
  let embeddings := paragraphs.map (getOpenAIEmbeddings provider)
  let simMatrix ← (List.range n).mapM fun i =>
    (List.range n).mapM fun j =>
      cosineSimilarityE sqrt (embeddings.getD i []) (embeddings.getD j [])
  let M := fun i j => ((simMatrix.getD i []).getD j 0)
  let avgAdjacentSimilarity : ℚ :=
    (((List.range (n - 1)).map fun i => M i (i + 1)).sum) / ((n - 1 : Nat) : ℚ)
  let dynamicThreshold := avgAdjacentSimilarity * (8 / 10)
  let semanticBoundaries :=
    (0 :: (List.range n).filter fun i =>
      1 ≤ i ∧ i + 1 < n ∧
        ((M (i - 1) i + M i (i + 1)) / 2 < dynamicThreshold ∧
         (M (i - 1) i + M i (i + 1)) / 2 < M (i - 1) i ∧
         (M (i - 1) i + M i (i + 1)) / 2 < M i (i + 1))) ++
    [n]
  let _diagnostic := semanticBoundaries
  let target : ℚ := if 0 < mc then min (mc : ℚ) ((n : ℚ) / 3) else (n : ℚ) / 3
  let clusters := clusterLoop M target n ((List.range n).map fun i => [i])
  let clusters := clusters.map fun c => c.insertionSort (· ≤ ·)
  let rawChunks := clusters.map fun cluster =>
    let clusterParagraphs := cluster.map fun idx => paragraphs.getD idx ""
    let totalLength : ℚ := (((clusterParagraphs.map String.length).sum : Nat) : ℚ)
    -- weighted cluster embedding (lines 670-681); every embedding reaching
    -- this point has the same length (a mismatch would have thrown while
    -- building the matrix), so the positionwise zip is exact
    let base := List.replicate (embeddings.getD 0 []).length (0 : ℚ)
    let clusterEmbedding := cluster.foldl (fun acc idx =>
      (acc.zip (embeddings.getD idx [])).map fun p =>
        p.1 + p.2 * (((paragraphs.getD idx "").length : ℚ) / totalLength)) base
    RawSemChunk.mk (joinSep "\n\n" clusterParagraphs) cluster clusterEmbedding
  let sorted := rawChunks.insertionSort fun x y => minNat x.indices ≤ minNat y.indices
  if 0 < ov ∧ 1 < sorted.length then
    (List.range sorted.length).mapM fun i => do
      let ci := sorted.getD i default
      let chunkText ← (List.range sorted.length).foldlM (fun acc j => do
        if i = j then pure acc
        else
          let other := sorted.getD j default
          let sim ← cosineSimilarityE sqrt ci.embedding other.embedding
          -- overlapThreshold = 0.6 (line 710); exact 6/10 here, the double
          -- is 0.59999999999999997779…, again only a knife-edge difference
          if (6 / 10 : ℚ) < sim then
            let withSim ← other.indices.mapM fun idx => do
              let s ← cosineSimilarityE sqrt ci.embedding (embeddings.getD idx [])
              pure (idx, s)
            -- stable descending sort by similarity (line 724)
            let sorted2 := withSim.insertionSort fun a b => b.2 ≤ a.2
            let k := (max 1 (qRound (sim * ((ov : ℚ) / 100) * (withSim.length : ℚ)))).toNat
            let selected := joinSep "\n\n"
              ((sorted2.take k).map fun p => paragraphs.getD p.1 "")
            if j < i then pure (selected ++ "\n\n" ++ acc)
            else pure (acc ++ "\n\n" ++ selected)
          else pure acc) ci.text
      pure (mkProto chunkText)
  else
    pure (sorted.map fun rc => mkProto rc.text)

/-- The result assembly of the credentialed path (lines 765-783); unlike the
other strategies the averages are **not** guarded by `length > 0` — the JS
expression would be `NaN` for an empty list, which is unreachable here
(`natRound _ 0 = 0` models that dead branch). -/
def semanticResult (protos : List ProtoChunk) (ov : Nat) : ChunkingResult :=
  let chunks := assignIds protos
  { chunks := chunks
    analysis :=
      { totalChunks := chunks.length
        averageChunkSize :=
          { tokens := natRound (chunks.map Chunk.tokens).sum chunks.length
            characters := natRound (chunks.map Chunk.characters).sum chunks.length }
        notes := "Advanced semantic chunking with OpenAI embeddings identified " ++
          (toString chunks.length ++ " thematic sections using agglomerative clustering" ++
            (if 0 < ov then " with intelligent semantic-based overlap between related chunks"
             else "")) } }

/-- JS truthiness of the optional `apiKey` string (`if (apiKey)`): present
and non-empty. -/
def jsTruthyStr : Option String → Bool
  | some s => s ≠ ""
  | none => false

/-- The whole `try` body of the credentialed path as an `Except`. -/
def semanticWithKeyTry (sqrt : ℚ → ℚ) (provider : String → Option (List ℚ))
    (text : String) (opts : ChunkingOptions) : Except String ChunkingResult :=
  (semanticProtos sqrt provider text (opts.maxChunks.getD 0) (opts.overlap.getD 0)).map
    fun ps => semanticResult ps (opts.overlap.getD 0)

/-- `semanticChunking` (chunking.ts lines 535-793).  Without a (truthy) API
key the function runs the heuristic fallback; with one, a text of `≤ 1`
paragraphs goes to paragraph-based chunking, and any exception thrown inside
the `try` is caught and redirected to the heuristic fallback (lines
784-792). -/
def semanticChunking (sqrt : ℚ → ℚ) (provider : String → Option (List ℚ))
    (text : String) (opts : ChunkingOptions) : ChunkingResult :=
  if jsTruthyStr opts.apiKey then
    let paragraphs := blankParagraphs text
    if paragraphs.length ≤ 1 then paragraphBasedChunking text opts
    else
      match semanticWithKeyTry sqrt provider text opts with
      | .ok r => r
      | .error _ => heuristicSemanticChunking text opts
  else heuristicSemanticChunking text opts

/-! ## Hybrid chunking (chunking.ts lines 923-1033) -/

/-- JS `options.field || default` for a numeric field: `none` and `0` are
falsy. -/
def jsTruthyNat (o : Option Nat) (d : Nat) : Nat :=
  match o with
  | some n => if n ≠ 0 then n else d
  | none => d

/-- The small-chunk merge of hybrid chunking (lines 989-1007): greedily
absorb the next chunk while the combined token count stays within the
budget; glue `"\n\n"`, sizes accumulated (`+2` characters for the glue). -/
def hybridMergeGo (budget : Nat) : List ProtoChunk → ProtoChunk → List ProtoChunk
  | [], cur => [cur]
  | p :: more, cur =>
    if cur.tokens + p.tokens ≤ budget then
      hybridMergeGo budget more
        { text := cur.text ++ "\n\n" ++ p.text, tokens := cur.tokens + p.tokens,
          characters := cur.characters + p.characters + 2 }
    else cur :: hybridMergeGo budget more p

/-- `hybridChunking` (chunking.ts lines 923-1033): paragraph-first split with
**default** options, oversized paragraphs re-chunked by sentences (`≤ 2×`
budget) or a sliding window, then adjacent merge when more than one chunk
exists, and sequential renumbering. -/
def hybridChunking (text : String) (opts : ChunkingOptions) : ChunkingResult :=
  let budget := jsTruthyNat opts.chunkSize 100
  let ov := opts.overlap.getD 0
  let paraChunks := (paragraphBasedChunking text {}).chunks
  let protos := (paraChunks.map fun paragraph =>
    if paragraph.tokens ≤ budget then
      [ProtoChunk.mk paragraph.text paragraph.tokens paragraph.characters]
    else if paragraph.tokens ≤ budget * 2 then
      (sentenceBasedChunking paragraph.text
        { chunkSize := some (ceilDiv budget 10),
          overlap := some (ceilDiv ov 10) }).chunks.map fun c =>
        ProtoChunk.mk c.text c.tokens c.characters
    else
      (slidingWindowChunking paragraph.text
        { chunkSize := some budget, overlap := some ov }).chunks.map fun c =>
        ProtoChunk.mk c.text c.tokens c.characters).flatten
  let merged := match protos with
    | [] => []
    | [p] => [p]
    | p :: more => hybridMergeGo budget more p
  mkResult merged
    ("Hybrid chunking created " ++
      (toString merged.length ++
        " chunks using a combination of paragraph-based, sentence-based, and sliding window approaches. Target chunk size was " ++
        toString budget ++ " tokens" ++
        (if 0 < ov then " with " ++ toString ov ++ " tokens of overlap where needed" else "") ++
        "."))

/-! ## Agentic chunking (chunking.ts lines 1040-1125) -/

/-- `calculateVariance` (lines 1119-1125), in exact rationals. -/
def calculateVariance (l : List ℚ) : ℚ :=
  if l.length = 0 then 0
  else
    let mean := l.sum / (l.length : ℚ)
    ((l.map fun v => (v - mean) * (v - mean)).sum) / (l.length : ℚ)

/-- One `\bword\b` occurrence somewhere in the text; `prev` is the character
before the cursor. -/
def existsWordGo (w : List Char) : Option Char → List Char → Bool
  | _, [] => false
  | prev, c :: rest =>
    ((match prev with
      | some p => !(isWordChar p)
      | none => true) &&
     w.isPrefixOf (c :: rest) &&
     (match ((c :: rest).drop w.length).head? with
      | some d => !(isWordChar d)
      | none => true)) ||
    existsWordGo w (some c) rest

/-- The code keywords of the `hasCode` regex (line 1062). -/
def codeKeywords : List String :=
  ["function", "class", "def", "var", "const", "let", "import", "from", "public", "private"]

/-- `hasCode` test: the two backtick alternatives
(`` ```[\s\S]*?``` `` and `` `[\s\S]*?` ``) match somewhere iff the text has
at least two backticks (the lazy bodies reach the next delimiter; a triple
fence implies two backticks and conversely two backticks satisfy the inline
alternative), plus the `\b(keyword)\b` alternative. -/
def hasCodeTest (s : String) : Bool :=
  2 ≤ (s.data.filter fun c => c.toNat == 96).length ||
  codeKeywords.any fun w => existsWordGo w.data none s.data

/-- `hasLists` first alternative `/^\s*[-*+]\s+/m`: at some line start, skip
whitespace (the greedy `\s*` may cross line breaks; an equivalent line start
then exists at the marker's own line, so probing every line start with a
full whitespace skip is exact), then a list marker followed by a whitespace
character (possibly the line's own terminator). -/
def listAnyGo : Bool → List Char → Bool
  | _, [] => false
  | atStart, c :: rest =>
    (atStart &&
      (match (c :: rest).dropWhile jsWs with
       | m :: w :: _ => (m == '-' || m == '*' || m == '+') && jsWs w
       | _ => false)) ||
    listAnyGo (c == '\n') rest

/-- `hasLists` second alternative `/\b\d+\.\s+/`: at some position with a
non-word (or no) predecessor, a maximal digit run, a dot, a whitespace. -/
def numDotGo : Option Char → List Char → Bool
  | _, [] => false
  | prev, c :: rest =>
    ((match prev with
      | some p => !(isWordChar p)
      | none => true) &&
     (let d := ((c :: rest).takeWhile isDigit).length
      1 ≤ d &&
      (match (c :: rest).drop d with
       | '.' :: w :: _ => jsWs w
       | _ => false))) ||
    numDotGo (some c) rest

/-- `/^\s*[-*+]\s+|\b\d+\.\s+/m.test(text)` (line 1063). -/
def hasListsTest (s : String) : Bool :=
  listAnyGo true s.data || numDotGo none s.data

/-- `/^#+\s+/m.test(text)` (line 1064): at some line start, a maximal `#`
run of length ≥ 1 followed by a whitespace character (possibly the line's
own terminator). -/
def headerAnyGo : Bool → List Char → Bool
  | _, [] => false
  | atStart, c :: rest =>
    (atStart &&
      (let h := ((c :: rest).takeWhile (· == '#')).length
       1 ≤ h &&
       (match ((c :: rest).drop h).head? with
        | some w => jsWs w
        | none => false))) ||
    headerAnyGo (c == '\n') rest

/-- `hasHeaders` test. -/
def hasHeadersTest (s : String) : Bool := headerAnyGo true s.data

/-- `sentenceCount` of agentic chunking (line 1050): global match count plus
one. -/
def sentenceCountOf (text : String) : Nat := countSentenceMatches text + 1

/-- `avgSentenceLength` (line 1053), exact rational. -/
def agenticAvgSentenceLength (text : String) : ℚ :=
  if 0 < sentenceCountOf text then
    (countTokens text : ℚ) / (sentenceCountOf text : ℚ)
  else 0

/-- `avgParagraphSize` (line 1054), exact rational. -/
def agenticAvgParagraphSize (text : String) : ℚ :=
  if 0 < (blankParagraphs text).length then
    (countTokens text : ℚ) / ((blankParagraphs text).length : ℚ)
  else (countTokens text : ℚ)

/-- Replace only the analysis notes of a result (agentic chunking mutates
`result.analysis.notes` in place, line 1113). -/
def withNotes (r : ChunkingResult) (notes : String) : ChunkingResult :=
  { r with analysis := { r.analysis with notes := notes } }

/-- `agenticChunking` (chunking.ts lines 1040-1116).  Document statistics in
exact rationals (`Math.round` as `qRound`); the cascade of dispatch rules in
source order, each returning the dispatched strategy's result paired with
its description; finally the notes are overwritten with the diagnostic
template. -/
def agenticChunking (text : String) (opts : ChunkingOptions) : ChunkingResult :=
  let paragraphs := blankParagraphs text
  let paragraphCount := paragraphs.length
  let sentenceCount := sentenceCountOf text
  let tokenCount := countTokens text
  let avgSentenceLength : ℚ := agenticAvgSentenceLength text
  let avgParagraphSize : ℚ := agenticAvgParagraphSize text
  let paragraphLengths := paragraphs.map fun p => ((p.length : Nat) : ℚ)
  let maxParagraphLength := (paragraphs.map String.length).foldl max 0
  let paragraphLengthVariance := calculateVariance paragraphLengths
  let hasCode := hasCodeTest text
  let hasLists := hasListsTest text
  let hasHeaders := hasHeadersTest text
  let rd :=
    if hasCode then
      ((paragraphBasedChunking text
         { opts with chunkSize := some (jsTruthyNat opts.chunkSize (max 3 (min 5 paragraphCount))) }),
       "paragraph-based chunking optimized for code content")
    else if paragraphCount ≤ 1 ∧ 10 < sentenceCount then
      ((sentenceBasedChunking text
         { opts with chunkSize := (
             some (jsTruthyNat opts.chunkSize (max 3 (min 8 (ceilDiv sentenceCount 3))))) }),
       "sentence-based chunking for single paragraphs with many sentences")
    else if 10000 < paragraphLengthVariance ∧ 1000 < maxParagraphLength then
      ((hybridChunking text
         { opts with overlap := (
             some (jsTruthyNat opts.overlap
               (min 50 (match opts.chunkSize with
                        | some n => if n ≠ 0 then ceilDiv n 5 else 20
                        | none => 20)))) }),
       "hybrid chunking for text with variable paragraph lengths")
    else if avgParagraphSize < 50 ∧ 5 < paragraphCount then
      ((paragraphBasedChunking text
         { opts with chunkSize := (
             some (jsTruthyNat opts.chunkSize (max 3 (min 10 (ceilDiv paragraphCount 3))))) }),
       "paragraph-based chunking for multiple small paragraphs")
    else if 20 < avgSentenceLength then
      ((slidingWindowChunking text
         { opts with overlap := (
             some (jsTruthyNat opts.overlap
               (min 50 (match opts.chunkSize with
                        | some n => if n ≠ 0 then ceilDiv n 4 else 25
                        | none => 25)))) }),
       "sliding window with overlap for long sentences")
    else if 1000 < tokenCount then
      (hybridChunking text opts, "hybrid chunking for lengthy documents")
    else if hasLists = true ∨ hasHeaders = true then
      (paragraphBasedChunking text opts,
       "paragraph-based chunking for structured content with lists or headers")
    else
      (heuristicSemanticChunking text opts,
       "semantic-like chunking for medium-sized documents")
  withNotes rd.1
    ("Agentic chunking automatically selected " ++
      (rd.2 ++ " based on document analysis: " ++ toString paragraphCount ++
        " paragraphs, " ++ toString sentenceCount ++ " sentences, avg sentence length: " ++
        toString (qRound avgSentenceLength) ++ " tokens, avg paragraph size: " ++
        toString (qRound avgParagraphSize) ++ " tokens, paragraph length variance: " ++
        toString (qRound paragraphLengthVariance) ++
        (if hasCode then ", contains code" else "") ++
        (if hasLists then ", contains lists" else "") ++
        (if hasHeaders then ", contains headers" else "") ++ "."))

/-! ## The retrieval ranker's cosine similarity
(src/app/home/page.tsx lines 467-472)

`calculateCosineSimilarity` divides `dot / (magnitudeA * magnitudeB)`
without any zero-magnitude guard: when the product of magnitudes is 0 the JS
result is `NaN` (or `±Infinity`), modelled as `none`.  If `vecB` is shorter
than `vecA`, `vecB[i]` is `undefined` and the dot product is `NaN`, also
`none`. -/
def calculateCosineSimilarity (sqrt : ℚ → ℚ) (vecA vecB : List ℚ) : Option ℚ :=
  if vecB.length < vecA.length then none
  else
    let dotProduct := (vecA.zip vecB).foldl (fun s p => s + p.1 * p.2) 0
    let magnitudeA := sqrt (vecA.foldl (fun s x => s + x * x) 0)
    let magnitudeB := sqrt (vecB.foldl (fun s x => s + x * x) 0)
    if magnitudeA * magnitudeB = 0 then none
    else some (dotProduct / (magnitudeA * magnitudeB))

/-- The concatenated token content of the chunks returned by token-mode
fixed-length chunking (used to state claim C2): the chunk texts,
re-tokenized, in order. -/
def coveredTokens (t : String) (cs : Nat) : List String :=
  ((fixedLengthChunking t
      { chunkSize := some cs, chunkingMode := some ChunkingMode.tokens }).chunks.map
    fun c => tokenize c.text).flatten

/-! # Result invariants shared by the strategies -/

/-- The id-contiguity invariant of claim C3: chunk ids are `0, 1, …` in
order (expressed as an equation with `List.range`, i.e. `chunks[i].id = i`
for every `i`) and `analysis.totalChunks` is the number of chunks. -/
def idsContiguous (r : ChunkingResult) : Prop :=
  r.chunks.map Chunk.id = List.range r.chunks.length ∧
  r.analysis.totalChunks = r.chunks.length

theorem assignIds_length (ps : List ProtoChunk) : (assignIds ps).length = ps.length := by
  simp [assignIds]

theorem assignIds_map_id (ps : List ProtoChunk) :
    (assignIds ps).map Chunk.id = List.range ps.length := by
  have h : (Chunk.id ∘ fun ip : Nat × ProtoChunk =>
      ({ id := ip.1, text := ip.2.text, tokens := ip.2.tokens,
         characters := ip.2.characters } : Chunk)) = Prod.fst := rfl
  rw [assignIds, List.map_map, h, List.enum_map_fst]

theorem idsContiguous_mkResult (ps : List ProtoChunk) (notes : String) :
    idsContiguous (mkResult ps notes) := by
  refine ⟨?_, rfl⟩
  show (assignIds ps).map Chunk.id = List.range (assignIds ps).length
  rw [assignIds_length, assignIds_map_id]

theorem idsContiguous_semanticResult (ps : List ProtoChunk) (ov : Nat) :
    idsContiguous (semanticResult ps ov) := by
  refine ⟨?_, rfl⟩
  show (assignIds ps).map Chunk.id = List.range (assignIds ps).length
  rw [assignIds_length, assignIds_map_id]

theorem idsContiguous_withNotes (r : ChunkingResult) (n : String)
    (h : idsContiguous r) : idsContiguous (withNotes r n) := h

theorem idsContiguous_fixedLengthChars (t : String) (o : ChunkingOptions) :
    idsContiguous (fixedLengthCharsChunking t o) :=
  idsContiguous_mkResult _ _

theorem idsContiguous_fixedLength (t : String) (o : ChunkingOptions) :
    idsContiguous (fixedLengthChunking t o) := by
  unfold fixedLengthChunking
  dsimp only
  split
  · split
    · exact idsContiguous_fixedLengthChars t o
    · exact idsContiguous_mkResult _ _
  · exact idsContiguous_mkResult _ _

theorem idsContiguous_sentence (t : String) (o : ChunkingOptions) :
    idsContiguous (sentenceBasedChunking t o) :=
  idsContiguous_mkResult _ _

theorem idsContiguous_paragraph (t : String) (o : ChunkingOptions) :
    idsContiguous (paragraphBasedChunking t o) :=
  idsContiguous_mkResult _ _

theorem idsContiguous_sliding (t : String) (o : ChunkingOptions) :
    idsContiguous (slidingWindowChunking t o) := by
  unfold slidingWindowChunking
  dsimp only
  split
  · exact idsContiguous_mkResult _ _
  · exact idsContiguous_mkResult _ _

theorem idsContiguous_recursive (t : String) (o : ChunkingOptions) :
    idsContiguous (recursiveTextSplitter t o) :=
  idsContiguous_mkResult _ _

theorem idsContiguous_heuristic (t : String) (o : ChunkingOptions) :
    idsContiguous (heuristicSemanticChunking t o) := by
  unfold heuristicSemanticChunking
  dsimp only
  split
  · exact idsContiguous_paragraph t o
  · split
    · exact idsContiguous_paragraph t o
    · exact idsContiguous_mkResult _ _

theorem semanticWithKeyTry_ok (sqrt : ℚ → ℚ) (provider : String → Option (List ℚ))
    (t : String) (o : ChunkingOptions) (r : ChunkingResult)
    (h : semanticWithKeyTry sqrt provider t o = .ok r) :
    ∃ ps, r = semanticResult ps (o.overlap.getD 0) := by
  unfold semanticWithKeyTry at h
  cases hp : semanticProtos sqrt provider t (o.maxChunks.getD 0) (o.overlap.getD 0) with
  | ok ps =>
    rw [hp] at h
    exact ⟨ps, by simpa [Except.map] using h.symm⟩
  | error e =>
    rw [hp] at h
    simp [Except.map] at h

theorem idsContiguous_semantic (sqrt : ℚ → ℚ) (provider : String → Option (List ℚ))
    (t : String) (o : ChunkingOptions) :
    idsContiguous (semanticChunking sqrt provider t o) := by
  unfold semanticChunking
  dsimp only
  split
  · split
    · exact idsContiguous_paragraph t o
    · split
      · next r hr =>
        obtain ⟨ps, rfl⟩ := semanticWithKeyTry_ok _ _ _ _ _ hr
        exact idsContiguous_semanticResult _ _
      · exact idsContiguous_heuristic t o
  · exact idsContiguous_heuristic t o

theorem idsContiguous_hybrid (t : String) (o : ChunkingOptions) :
    idsContiguous (hybridChunking t o) :=
  idsContiguous_mkResult _ _

theorem idsContiguous_agentic (t : String) (o : ChunkingOptions) :
    idsContiguous (agenticChunking t o) := by
  unfold agenticChunking
  dsimp only
  apply idsContiguous_withNotes
  simp only [apply_ite (Prod.fst : ChunkingResult × String → ChunkingResult)]
  split
  · exact idsContiguous_paragraph _ _
  · split
    · exact idsContiguous_sentence _ _
    · split
      · exact idsContiguous_hybrid _ _
      · split
        · exact idsContiguous_paragraph _ _
        · split
          · exact idsContiguous_sliding _ _
          · split
            · exact idsContiguous_hybrid _ _
            · split
              · exact idsContiguous_paragraph _ _
              · exact idsContiguous_heuristic _ _

theorem mkResult_chunks_length (ps : List ProtoChunk) (n : String) :
    (mkResult ps n).chunks.length = ps.length :=
  assignIds_length ps

theorem slidingCharGo_length_le (cl : List Char) (cs astep : Nat) :
    ∀ (fuel i : Nat) (has : Bool) (emitted : Nat), emitted < 100 →
      (slidingCharGo cl cs astep fuel i has emitted).length + emitted ≤ 100 := by
  intro fuel
  induction fuel with
  | zero => intro i has emitted h; simp [slidingCharGo]; omega
  | succ n ih =>
    intro i has emitted h
    unfold slidingCharGo
    split
    · dsimp only
      simp only [apply_ite List.length, List.length_nil, List.length_cons]
      split_ifs
      all_goals try have h2 := ih (i + astep) true (emitted + 1) (by omega)
      all_goals omega
    · simp only [List.length_nil]; omega

theorem slidingTokenGo_length_le (toks : List String) (cs astep : Nat) :
    ∀ (fuel i : Nat) (has : Bool) (emitted : Nat), emitted < 100 →
      (slidingTokenGo toks cs astep fuel i has emitted).length + emitted ≤ 100 := by
  intro fuel
  induction fuel with
  | zero => intro i has emitted h; simp [slidingTokenGo]; omega
  | succ n ih =>
    intro i has emitted h
    unfold slidingTokenGo
    split
    · dsimp only
      simp only [apply_ite List.length, List.length_nil, List.length_cons]
      split_ifs
      all_goals try have h2 := ih (i + astep) true (emitted + 1) (by omega)
      all_goals omega
    · simp only [List.length_nil]; omega

/-! Tokens are the maximal non-whitespace runs, so they are non-empty and
whitespace-free, and re-tokenizing a space-join of such strings returns
them unchanged.  These lemmas support claim C2. -/

theorem tokenizeAux_mem (l : List Char) :
    ∀ (acc : List Char), (∀ c ∈ acc, jsWs c = false) →
      ∀ x ∈ tokenizeAux l acc, x ≠ [] ∧ ∀ c ∈ x, jsWs c = false := by
  induction l with
  | nil =>
    intro acc hacc x hx
    unfold tokenizeAux at hx
    split at hx
    · simp at hx
    · next h =>
      simp only [List.mem_singleton] at hx
      subst hx
      refine ⟨by simpa using h, fun c hc => hacc c (List.mem_reverse.mp hc)⟩
  | cons c rest ih =>
    intro acc hacc x hx
    unfold tokenizeAux at hx
    split at hx
    · split at hx
      · exact ih [] (by simp) x hx
      · next h =>
        rcases List.mem_cons.mp hx with h1 | h1
        · subst h1
          exact ⟨by simpa using h, fun d hd => hacc d (List.mem_reverse.mp hd)⟩
        · exact ih [] (by simp) x h1
    · next hws =>
      refine ih (c :: acc) ?_ x hx
      intro d hd
      rcases List.mem_cons.mp hd with rfl | hd
      · simpa using hws
      · exact hacc d hd

theorem eq_empty_of_data_nil (a : String) (h : a.data = []) : a = "" := by
  cases a
  simp_all

theorem tokenize_mem (t : String) :
    ∀ x ∈ tokenize t, x ≠ "" ∧ ∀ c ∈ x.data, jsWs c = false := by
  intro x hx
  unfold tokenize at hx
  obtain ⟨ld, hld, rfl⟩ := List.mem_map.mp hx
  have h := tokenizeAux_mem t.data [] (by simp) ld hld
  refine ⟨?_, h.2⟩
  intro hcon
  exact h.1 (by simpa using congrArg String.data hcon)

theorem tokenizeAux_token_sep (tok : List Char) (htok : ∀ c ∈ tok, jsWs c = false) :
    ∀ (acc rest : List Char), (acc = [] → tok ≠ []) →
      tokenizeAux (tok ++ ' ' :: rest) acc = (acc.reverse ++ tok) :: tokenizeAux rest [] := by
  induction tok with
  | nil =>
    intro acc rest h
    have hacc : acc ≠ [] := by
      intro hc
      exact (h hc) rfl
    simp only [List.nil_append]
    conv_lhs => rw [tokenizeAux]
    rw [if_pos (by decide), if_neg hacc]
    simp
  | cons c tok' ih =>
    intro acc rest h
    have hc : jsWs c = false := htok c (by simp)
    simp only [List.cons_append]
    conv_lhs => rw [tokenizeAux]
    rw [if_neg (by simp [hc])]
    rw [ih (fun d hd => htok d (by simp [hd])) (c :: acc) rest (by simp)]
    simp

theorem tokenizeAux_token_only (tok : List Char) (htok : ∀ c ∈ tok, jsWs c = false) :
    ∀ (acc : List Char), (acc = [] → tok ≠ []) →
      tokenizeAux tok acc = [acc.reverse ++ tok] := by
  induction tok with
  | nil =>
    intro acc h
    have hacc : acc ≠ [] := by
      intro hc
      exact (h hc) rfl
    conv_lhs => rw [tokenizeAux]
    rw [if_neg hacc]
    simp
  | cons c tok' ih =>
    intro acc h
    have hc : jsWs c = false := htok c (by simp)
    conv_lhs => rw [tokenizeAux]
    rw [if_neg (by simp [hc])]
    rw [ih (fun d hd => htok d (by simp [hd])) (c :: acc) (by simp)]
    simp

theorem tokenize_joinSep (w : List String)
    (hw : ∀ x ∈ w, x ≠ "" ∧ ∀ c ∈ x.data, jsWs c = false) :
    tokenize (joinSep " " w) = w := by
  induction w with
  | nil => rfl
  | cons a rest ih =>
    cases rest with
    | nil =>
      obtain ⟨ha1, ha2⟩ := hw a (by simp)
      unfold tokenize
      show (tokenizeAux a.data []).map String.mk = [a]
      rw [tokenizeAux_token_only a.data ha2 [] (fun _ hc => ha1 (eq_empty_of_data_nil a hc))]
      simp
    | cons b rest' =>
      obtain ⟨ha1, ha2⟩ := hw a (by simp)
      have hj : joinSep " " (a :: b :: rest') = a ++ " " ++ joinSep " " (b :: rest') := rfl
      unfold tokenize
      rw [hj]
      have hd : (a ++ " " ++ joinSep " " (b :: rest')).data =
          a.data ++ ' ' :: (joinSep " " (b :: rest')).data := by
        rw [String.data_append, String.data_append]
        simp
      rw [hd]
      rw [tokenizeAux_token_sep a.data ha2 [] _ (fun _ hc => ha1 (eq_empty_of_data_nil a hc))]
      have ih2 := ih (fun x hx => hw x (by simp [hx]))
      unfold tokenize at ih2
      simp only [List.map_cons, List.reverse_nil, List.nil_append]
      rw [ih2]

theorem assignIds_map_text {α : Type} (ps : List ProtoChunk) (f : String → α) :
    (assignIds ps).map (fun c => f c.text) = ps.map (fun p => f p.text) := by
  rw [assignIds, List.map_map]
  have : ((fun c : Chunk => f c.text) ∘ fun ip : Nat × ProtoChunk =>
      ({ id := ip.1, text := ip.2.text, tokens := ip.2.tokens,
         characters := ip.2.characters } : Chunk)) =
      (fun p : ProtoChunk => f p.text) ∘ Prod.snd := rfl
  rw [this, ← List.map_map, List.enum_map_snd]

theorem fixedTokenGo_covers (toks : List String) (cs : Nat) (hcs : 1 ≤ cs)
    (htok : ∀ x ∈ toks, x ≠ "" ∧ ∀ c ∈ x.data, jsWs c = false) :
    ∀ (fuel i : Nat) (has : Bool), toks.length + 1 ≤ fuel + i →
      ∃ k, i ≤ k ∧
        ((fixedTokenGo toks cs cs fuel i has).map fun p => tokenize p.text).flatten
          = (toks.drop i).take (k - i) ∧
        4 * (toks.length - k) < cs := by
  intro fuel
  induction fuel with
  | zero =>
    intro i has h
    refine ⟨i, le_refl i, by simp [fixedTokenGo], by omega⟩
  | succ n ih =>
    intro i has h
    by_cases hi : i < toks.length
    · simp only [fixedTokenGo]
      rw [if_pos hi]
      by_cases hbreak : 4 * ((toks.drop i).take cs).length < cs ∧ has = true
      · rw [if_pos hbreak]
        refine ⟨i, le_refl i, by simp, ?_⟩
        have hb := hbreak.1
        rw [List.length_take, List.length_drop] at hb
        omega
      · rw [if_neg hbreak]
        obtain ⟨k', hk1, hk2, hk3⟩ := ih (i + cs) true (by omega)
        refine ⟨k', by omega, ?_, hk3⟩
        simp only [List.map_cons, List.flatten_cons]
        rw [hk2]
        have hw : tokenize (joinSep " " ((toks.drop i).take cs)) = (toks.drop i).take cs :=
          tokenize_joinSep _ (fun x hx =>
            htok x (List.mem_of_mem_drop (List.mem_of_mem_take hx)))
        rw [hw]
        by_cases hend : toks.length ≤ i + cs
        · have h1 : (toks.drop i).take cs = toks.drop i :=
            List.take_of_length_le (by rw [List.length_drop]; omega)
          have h2 : toks.drop (i + cs) = [] := List.drop_eq_nil_of_le hend
          have h4 : (toks.drop i).take (k' - i) = toks.drop i :=
            List.take_of_length_le (by rw [List.length_drop]; omega)
          rw [h1, h2, h4]
          simp
        · have hkcs : k' - i = cs + (k' - (i + cs)) := by omega
          rw [hkcs, List.take_add, List.drop_drop]
    · refine ⟨i, le_refl i, ?_, by omega⟩
      simp only [fixedTokenGo]
      rw [if_neg hi]
      simp

/-! Lemmas about the single-pass global replacement, for claim C10. -/

theorem isPrefixOf_length_le : ∀ (p l : List Char), p.isPrefixOf l = true → p.length ≤ l.length
  | [], _, _ => by simp
  | a :: p', [], h => by simp [List.isPrefixOf] at h
  | a :: p', b :: l', h => by
    simp only [List.isPrefixOf, Bool.and_eq_true] at h
    have := isPrefixOf_length_le p' l' h.2
    simp only [List.length_cons]
    omega

theorem removeAllAux_length_le (pat : List Char) :
    ∀ (fuel : Nat) (s : List Char), (removeAllAux pat fuel s).length ≤ s.length := by
  intro fuel
  induction fuel with
  | zero => intro s; simp [removeAllAux]
  | succ n ih =>
    intro s
    unfold removeAllAux
    cases s with
    | nil => simp
    | cons c rest =>
      dsimp only
      split
      · have h1 := ih ((c :: rest).drop pat.length)
        have h2 : ((c :: rest).drop pat.length).length ≤ (c :: rest).length :=
          by simp [List.length_drop]
        omega
      · have h1 := ih rest
        simp only [List.length_cons]
        omega

theorem removeAllAux_length_sub (pat : List Char) (hpat : pat ≠ []) :
    ∀ (fuel : Nat) (s : List Char), s.length ≤ fuel → containsSubL pat s = true →
      (removeAllAux pat fuel s).length + pat.length ≤ s.length := by
  intro fuel
  induction fuel with
  | zero =>
    intro s hs hc
    cases s with
    | nil => simp [containsSubL, List.isEmpty_iff] at hc; exact absurd hc hpat
    | cons c rest => simp at hs
  | succ n ih =>
    intro s hs hc
    cases s with
    | nil => simp [containsSubL, List.isEmpty_iff] at hc; exact absurd hc hpat
    | cons c rest =>
      unfold removeAllAux
      dsimp only
      split
      · next hpre =>
        have h1 := removeAllAux_length_le pat n ((c :: rest).drop pat.length)
        have h2 := isPrefixOf_length_le pat (c :: rest) hpre
        simp only [List.length_drop] at h1
        omega
      · next hpre =>
        have hc' : containsSubL pat rest = true := by
          unfold containsSubL at hc
          simp only [hpre, Bool.false_or] at hc
          exact hc
        have h1 := ih rest (by simp at hs; omega) hc'
        simp only [List.length_cons]
        omega

theorem removeAllAux_not_contains (pat : List Char) :
    ∀ (fuel : Nat) (s : List Char), containsSubL pat s = false →
      removeAllAux pat fuel s = s := by
  intro fuel
  induction fuel with
  | zero => intro s h; rfl
  | succ n ih =>
    intro s h
    cases s with
    | nil => rfl
    | cons c rest =>
      unfold removeAllAux
      dsimp only
      unfold containsSubL at h
      simp only [Bool.or_eq_false_iff] at h
      rw [if_neg (by simp [h.1])]
      rw [ih rest h.2]

/-- Every chunk text of sentence-based chunking is a space-join of extracted
(postprocessed) sentences; supports claim C10. -/
theorem sentenceGo_window (sents : List String) (cs step : Nat) :
    ∀ (fuel i : Nat) (has : Bool), ∀ p ∈ sentenceGo sents cs step fuel i has,
      ∃ w, (∀ x ∈ w, x ∈ sents) ∧ p.text = joinSep " " w := by
  intro fuel
  induction fuel with
  | zero => intro i has p hp; simp [sentenceGo] at hp
  | succ n ih =>
    intro i has p hp
    unfold sentenceGo at hp
    split at hp
    · dsimp only at hp
      split at hp
      · simp at hp
      · rcases List.mem_cons.mp hp with h1 | h1
        · subst h1
          exact ⟨(sents.drop i).take cs,
            fun x hx => List.mem_of_mem_drop (List.mem_of_mem_take hx), rfl⟩
        · exact ih (i + step) true p h1
    · simp at hp

theorem mem_assignIds_text (ps : List ProtoChunk) (c : Chunk) (hc : c ∈ assignIds ps) :
    ∃ p ∈ ps, p.text = c.text := by
  unfold assignIds at hc
  obtain ⟨ip, hip, rfl⟩ := List.mem_map.mp hc
  refine ⟨ip.2, ?_, rfl⟩
  have h := List.mem_map_of_mem Prod.snd hip
  rwa [List.enum_map_snd] at h

/-- Every chunk text returned by sentence-based chunking is a space-join of
members of the extracted sentence list (each of which went through
`postprocessText`, except the raw-text fallback). -/
theorem sentence_chunk_text (t : String) (o : ChunkingOptions) :
    ∀ c ∈ (sentenceBasedChunking t o).chunks,
      ∃ w, (∀ x ∈ w, x ∈ extractSentences t) ∧ c.text = joinSep " " w := by
  intro c hc
  have hc' : c ∈ assignIds (sentenceGo (sentencesToProcess t o) (o.chunkSize.getD 5)
      ((stepUnclamped (o.chunkSize.getD 5) (o.overlap.getD 0)).toNat)
      ((sentencesToProcess t o).length + 1) 0 false) := hc
  obtain ⟨p, hp, hpt⟩ := mem_assignIds_text _ _ hc'
  obtain ⟨w, hw, hwt⟩ := sentenceGo_window _ _ _ _ _ _ p hp
  refine ⟨w, fun x hx => ?_, by rw [← hpt, hwt]⟩
  have hx2 : x ∈ sentencesToProcess t o := hw x hx
  unfold sentencesToProcess at hx2
  exact List.mem_of_mem_take hx2

theorem paraGo_length_le (ps : List String) (adjusted step mc : Nat) :
    ∀ (fuel i : Nat) (has : Bool) (emitted : Nat), emitted < mc →
      (paraGo ps adjusted step mc fuel i has emitted).length + emitted ≤ mc := by
  intro fuel
  induction fuel with
  | zero => intro i has emitted h; simp [paraGo]; omega
  | succ n ih =>
    intro i has emitted h
    unfold paraGo
    split
    · dsimp only
      simp only [apply_ite List.length, List.length_nil, List.length_cons]
      split_ifs
      all_goals try have h2 := ih (i + step) true (emitted + 1) (by omega)
      all_goals omega
    · simp only [List.length_nil]; omega

theorem fixedCharsGo_length_le (cl : List Char) (ecs step mc : Nat) (sep : String) :
    ∀ (fuel i : Nat) (has : Bool) (emitted : Nat), 0 < mc → emitted < mc →
      (fixedCharsGo cl ecs step mc sep fuel i has emitted).length + emitted ≤ mc := by
  intro fuel
  induction fuel with
  | zero => intro i has emitted hmc h; simp [fixedCharsGo]; omega
  | succ n ih =>
    intro i has emitted hmc h
    unfold fixedCharsGo
    split
    · dsimp only
      simp only [apply_ite List.length, List.length_nil, List.length_cons]
      split_ifs
      all_goals try have h2 := ih (i + step) true (emitted + 1) hmc (by omega)
      all_goals omega
    · simp only [List.length_nil]; omega

theorem sentenceGo_length_le (sents : List String) (cs : Nat) :
    ∀ (k fuel i : Nat) (has : Bool), sents.length ≤ i + k * cs →
      (sentenceGo sents cs cs fuel i has).length ≤ k := by
  intro k
  induction k with
  | zero =>
    intro fuel i has h
    cases fuel with
    | zero => simp [sentenceGo]
    | succ n =>
      unfold sentenceGo
      rw [if_neg (by omega)]
      simp
  | succ k ih =>
    intro fuel i has h
    cases fuel with
    | zero => simp [sentenceGo]
    | succ n =>
      unfold sentenceGo
      split
      · dsimp only
        split
        · simp
        · simp only [List.length_cons]
          have h2 := ih n (i + cs) true (by rw [Nat.succ_mul] at h; omega)
          omega
      · simp

theorem length_take_if_le {α : Type} (mc : Nat) (hmc : 0 < mc) (l : List α) :
    (if 0 < mc ∧ mc < l.length then l.take mc else l).length ≤ mc := by
  split_ifs with h
  · simp only [List.length_take]
    omega
  · omega

theorem paragraphBased_maxChunks (t : String) (o : ChunkingOptions) (mc : Nat)
    (h : o.maxChunks = some mc) (hmc : 0 < mc) :
    (paragraphBasedChunking t o).chunks.length ≤ mc := by
  unfold paragraphBasedChunking
  dsimp only
  rw [mkResult_chunks_length, h]
  simp only [Option.getD_some]
  simpa using paraGo_length_le _ _ _ mc _ 0 false 0 hmc

theorem fixedLengthChars_maxChunks (t : String) (o : ChunkingOptions) (mc : Nat)
    (h : o.maxChunks = some mc) (hmc : 0 < mc) :
    (fixedLengthCharsChunking t o).chunks.length ≤ mc := by
  unfold fixedLengthCharsChunking
  dsimp only
  rw [mkResult_chunks_length, h]
  simp only [Option.getD_some]
  simpa using fixedCharsGo_length_le _ _ _ mc _ _ 0 false 0 hmc (by omega)

theorem recursive_maxChunks (t : String) (o : ChunkingOptions) (mc : Nat)
    (h : o.maxChunks = some mc) (hmc : 0 < mc) :
    (recursiveTextSplitter t o).chunks.length ≤ mc := by
  unfold recursiveTextSplitter
  dsimp only
  rw [mkResult_chunks_length, h]
  simp only [Option.getD_some, List.length_map]
  exact length_take_if_le mc hmc _

theorem heuristic_maxChunks (t : String) (o : ChunkingOptions) (mc : Nat)
    (h : o.maxChunks = some mc) (hmc : 0 < mc) :
    (heuristicSemanticChunking t o).chunks.length ≤ mc := by
  unfold heuristicSemanticChunking
  dsimp only
  split
  · exact paragraphBased_maxChunks t o mc h hmc
  · split
    · exact paragraphBased_maxChunks t o mc h hmc
    · rw [mkResult_chunks_length, h]
      simp only [Option.getD_some]
      exact length_take_if_le mc hmc _

theorem sentence_maxChunks_overlap0 (t : String) (o : ChunkingOptions) (mc : Nat)
    (h : o.maxChunks = some mc) (hmc : 0 < mc)
    (hov : o.overlap = none ∨ o.overlap = some 0) :
    (sentenceBasedChunking t o).chunks.length ≤ mc := by
  have hov0 : o.overlap.getD 0 = 0 := by rcases hov with h1 | h1 <;> simp [h1]
  unfold sentenceBasedChunking
  dsimp only
  rw [mkResult_chunks_length, hov0]
  have hstep : (stepUnclamped (o.chunkSize.getD 5) 0).toNat = o.chunkSize.getD 5 := by
    unfold stepUnclamped
    simp
  rw [hstep]
  apply sentenceGo_length_le
  have hlen : (sentencesToProcess t o).length ≤ mc * (o.chunkSize.getD 5) := by
    unfold sentencesToProcess
    rw [h]
    simp only [Option.getD_some, if_pos hmc, List.length_take]
    omega
  omega

/-! # The claims -/

/-- C3: for every strategy, every input text and every options value, the
returned `ChunkingResult` satisfies `chunks[i].id = i` for every index `i`
(stated as `chunks.map id = range (length chunks)`), and
`analysis.totalChunks` equals the number of chunks.  The semantic strategy
is quantified over the `Math.sqrt` oracle and the embedding provider, so the
statement covers every provider behaviour, key or no key. -/
theorem c3_id_contiguity :
    (∀ t o, idsContiguous (fixedLengthChunking t o)) ∧
    (∀ t o, idsContiguous (fixedLengthCharsChunking t o)) ∧
    (∀ t o, idsContiguous (sentenceBasedChunking t o)) ∧
    (∀ t o, idsContiguous (paragraphBasedChunking t o)) ∧
    (∀ t o, idsContiguous (slidingWindowChunking t o)) ∧
    (∀ t o, idsContiguous (recursiveTextSplitter t o)) ∧
    (∀ t o, idsContiguous (heuristicSemanticChunking t o)) ∧
    (∀ sqrt provider t o, idsContiguous (semanticChunking sqrt provider t o)) ∧
    (∀ t o, idsContiguous (hybridChunking t o)) ∧
    (∀ t o, idsContiguous (agenticChunking t o)) :=
  ⟨idsContiguous_fixedLength, idsContiguous_fixedLengthChars, idsContiguous_sentence,
   idsContiguous_paragraph, idsContiguous_sliding, idsContiguous_recursive,
   idsContiguous_heuristic, idsContiguous_semantic, idsContiguous_hybrid,
   idsContiguous_agentic⟩

/-- C1, counterexample: the claim asserts the effective step of **every**
windowed strategy is at least 1 for every options value, but fixed-length
chunking's step (`overlap > 0 ? chunkSize - overlap : chunkSize`, used by
both of its naive paths) is 0 at `chunkSize = overlap = 100`, so the loop
`for (i …; i += step)` never advances there. -/
theorem c1_step_positivity_counterexample :
    stepUnclamped 100 100 = 0 ∧ ¬ (1 ≤ stepUnclamped 100 100) := by decide

/-- C1, amended: the boundary-snapping character strategy and the
sliding-window strategy do guarantee a step of at least 1 unit for every
options value (including the widened `adjustedStep` whenever the input is
non-empty), but fixed-length chunking's unclamped step is at least 1 only
when `overlap < chunkSize` (or, at `overlap = 0`, when `chunkSize ≥ 1`);
for `overlap ≥ chunkSize > 0` it is `≤ 0` and the loop does not advance. -/
theorem c1_step_positivity_amended :
    (∀ cs ov : Nat, 1 ≤ fixedCharsStep cs ov) ∧
    (∀ cs ov : Nat, 1 ≤ slidingStep cs ov) ∧
    (∀ len cs ov : Nat, 1 ≤ len → 1 ≤ slidingAdjustedStep len cs ov) ∧
    (∀ cs ov : Nat, 0 < ov → ov < cs → 1 ≤ stepUnclamped cs ov) ∧
    (∀ cs : Nat, stepUnclamped cs 0 = (cs : Int)) := by
  refine ⟨?_, ?_, ?_, ?_, ?_⟩
  · intro cs ov
    unfold fixedCharsStep fixedCharsEffOverlap fixedCharsEffSize
    omega
  · intro cs ov
    unfold slidingStep
    omega
  · intro len cs ov h
    unfold slidingAdjustedStep slidingEstimated slidingStep ceilDiv
    split <;> omega
  · intro cs ov h1 h2
    unfold stepUnclamped
    rw [if_pos h1]
    omega
  · intro cs
    unfold stepUnclamped
    rw [if_neg (by omega)]

/-- C1, witness for the amended theorem at concrete inputs. -/
theorem c1_step_positivity_witness :
    1 ≤ fixedCharsStep 500 50 ∧ 1 ≤ slidingStep 100 50 ∧
    1 ≤ slidingAdjustedStep 7 100 50 ∧ 1 ≤ stepUnclamped 5 3 ∧
    stepUnclamped 5 0 = 5 :=
  ⟨c1_step_positivity_amended.1 500 50,
   c1_step_positivity_amended.2.1 100 50,
   c1_step_positivity_amended.2.2.1 7 100 50 (by decide),
   c1_step_positivity_amended.2.2.2.1 5 3 (by decide) (by decide),
   c1_step_positivity_amended.2.2.2.2 5⟩

/-- C6: with no API key, semantic chunking returns exactly the heuristic
structural fallback's result — for every `Math.sqrt` oracle and provider
behaviour — and when the text has at most one paragraph (the
`split(/\n\s*\n/).filter(Boolean)` list), the result is exactly
paragraph-based chunking on the same text and options. -/
theorem c6_fallback_determinism :
    ∀ (sqrt : ℚ → ℚ) (provider : String → Option (List ℚ))
      (t : String) (o : ChunkingOptions),
      o.apiKey = none →
      semanticChunking sqrt provider t o = heuristicSemanticChunking t o ∧
      ((blankParagraphs t).length ≤ 1 →
        semanticChunking sqrt provider t o = paragraphBasedChunking t o) := by
  intro sqrt provider t o h
  have hk : jsTruthyStr o.apiKey = false := by rw [h]; rfl
  constructor
  · simp [semanticChunking, hk]
  · intro hp
    simp [semanticChunking, hk, heuristicSemanticChunking, hp]

/-- C6, witness: key-less options on a one-paragraph text. -/
theorem c6_fallback_determinism_witness :
    semanticChunking (fun q => q) (fun _ => none) "x" {} = heuristicSemanticChunking "x" {} ∧
    semanticChunking (fun q => q) (fun _ => none) "x" {} = paragraphBasedChunking "x" {} :=
  ⟨(c6_fallback_determinism (fun q => q) (fun _ => none) "x" {} rfl).1,
   (c6_fallback_determinism (fun q => q) (fun _ => none) "x" {} rfl).2 (by decide)⟩

/-- C8: the recursive splitter's internal-failure fallback returns
`fixedLengthChunking(text, options)` verbatim, and that substitution is
distinguishable from a normal recursive result: the fallback's analysis
notes always begin `"Text was divided into …"` (on each of the fixed-length
paths) while every successful recursive split's notes begin `"Text was
recursively split into …"`, so no fallback result can be mistaken for a
successful recursive split. -/
theorem c8_recursive_fallback_notes :
    ∀ (t : String) (o : ChunkingOptions) (t2 : String) (o2 : ChunkingOptions),
      recursiveSplitterFallback t o = fixedLengthChunking t o ∧
      (recursiveSplitterFallback t o).analysis.notes ≠
        (recursiveTextSplitter t2 o2).analysis.notes := by
  intro t o t2 o2
  refine ⟨rfl, ?_⟩
  obtain ⟨r1, h1⟩ : ∃ r1, (recursiveSplitterFallback t o).analysis.notes =
      "Text was divided into " ++ r1 := by
    show ∃ r1, (fixedLengthChunking t o).analysis.notes = _
    unfold fixedLengthChunking
    dsimp only
    split
    · split
      · exact ⟨_, rfl⟩
      · exact ⟨_, rfl⟩
    · exact ⟨_, rfl⟩
  obtain ⟨r2, h2⟩ : ∃ r2, (recursiveTextSplitter t2 o2).analysis.notes =
      "Text was recursively split into " ++ r2 := ⟨_, rfl⟩
  rw [h1, h2]
  intro h
  have hd : ("Text was divided into " ++ r1).data =
      ("Text was recursively split into " ++ r2).data := by rw [h]
  rw [String.data_append, String.data_append] at hd
  have h3 := congrArg (fun l => l[9]?) hd
  simp only at h3
  rw [List.getElem?_append_left (by decide), List.getElem?_append_left (by decide)] at h3
  revert h3
  decide

/-- C9, counterexample: the claim asserts that the cosine similarity used by
the retrieval ranker returns 0 on zero-magnitude vectors, but
`calculateCosineSimilarity` (page.tsx) divides without a zero guard: on the
zero vectors `[0]`, `[0]` the JS result is `0 / 0 = NaN` (modelled `none`),
not `0` and not a real number in `[-1, 1]`.  The oracle `fun q => q` agrees
with `Math.sqrt` at the only argument used, `0`. -/
theorem c9_zero_vector_counterexample :
    calculateCosineSimilarity (fun q => q) [0] [0] = none ∧
    ¬ calculateCosineSimilarity (fun q => q) [0] [0] = some 0 := by
  norm_num [calculateCosineSimilarity]
  intro h
  exact Option.noConfusion h

/-- C9, amended: the `cosineSimilarity` of chunking.ts (used by semantic
chunking) does return 0 whenever either vector has zero magnitude (the
guard fires before any square root is taken, so this holds for every
oracle); the ranker's `calculateCosineSimilarity`, however, returns a
non-finite value (`NaN`/`±∞`, modelled `none`) whenever the product of the
square-rooted magnitudes is 0 — in particular on any zero-magnitude vector,
since `Math.sqrt 0 = 0`.  So `QueryResult` scores are real numbers only
when the query and all ranked embeddings have non-zero magnitude. -/
theorem c9_zero_vector_amended :
    (∀ (sqrt : ℚ → ℚ) (a b : List ℚ), a.length = b.length →
      (a.foldl (fun s x => s + x * x) 0 = 0 ∨ b.foldl (fun s x => s + x * x) 0 = 0) →
      cosineSimilarityE sqrt a b = .ok 0) ∧
    (∀ (sqrt : ℚ → ℚ) (a b : List ℚ),
      sqrt (a.foldl (fun s x => s + x * x) 0) * sqrt (b.foldl (fun s x => s + x * x) 0) = 0 →
      a.length ≤ b.length →
      calculateCosineSimilarity sqrt a b = none) := by
  constructor
  · intro sqrt a b hlen hz
    unfold cosineSimilarityE
    rw [if_neg (by omega)]
    dsimp only
    rw [if_pos hz]
  · intro sqrt a b hz hlen
    unfold calculateCosineSimilarity
    rw [if_neg (by omega)]
    dsimp only
    rw [if_pos hz]

/-- C2, counterexample: content can be lost beyond overlap/merge
transformations — the trailing-fragment rule drops a sub-25% final window
outright.  Token-mode fixed-length chunking with `chunkSize = 8` on the
9-token text `"a b c d e f g h i"` emits one chunk of 8 tokens and then
discards the fragment `"i"` (1 < 8/4), so the token `"i"` of the document
appears in no returned chunk. -/
theorem c2_coverage_counterexample :
    "i" ∈ tokenize "a b c d e f g h i" ∧
    ∀ c ∈ (fixedLengthChunking "a b c d e f g h i"
        { chunkSize := some 8, chunkingMode := some ChunkingMode.tokens }).chunks,
      "i" ∉ tokenize c.text := by
  constructor
  · decide
  · decide

/-- C2, amended: for token-mode fixed-length chunking the concatenated
(re-tokenized) chunk contents are exactly a prefix of the document's token
sequence, and the dropped suffix is strictly smaller than 25% of
`chunkSize` — i.e. the only loss is the documented sub-25% trailing
fragment (and, in other strategies, the documented `maxChunks`
truncations). -/
theorem c2_coverage_amended :
    ∀ (t : String) (cs : Nat), 1 ≤ cs →
      coveredTokens t cs = (tokenize t).take (coveredTokens t cs).length ∧
      (coveredTokens t cs).length ≤ (tokenize t).length ∧
      4 * ((tokenize t).length - (coveredTokens t cs).length) < cs := by
  intro t cs hcs
  have hpath : (fixedLengthChunking t
      { chunkSize := some cs, chunkingMode := some ChunkingMode.tokens }).chunks
      = assignIds (fixedTokenGo (tokenize t) cs cs ((tokenize t).length + 1) 0 false) := by
    unfold fixedLengthChunking
    dsimp only
    rw [if_neg (by simp)]
    rfl
  have hcov : coveredTokens t cs =
      ((fixedTokenGo (tokenize t) cs cs ((tokenize t).length + 1) 0 false).map
        fun p => tokenize p.text).flatten := by
    unfold coveredTokens
    rw [hpath, assignIds_map_text]
  obtain ⟨k, hk1, hk2, hk3⟩ := fixedTokenGo_covers (tokenize t) cs hcs (tokenize_mem t)
    ((tokenize t).length + 1) 0 false (by omega)
  simp only [Nat.sub_zero, List.drop_zero] at hk2
  rw [hcov, hk2]
  have hlen : ((tokenize t).take k).length = min k (tokenize t).length :=
    List.length_take ..
  refine ⟨?_, by omega, by omega⟩
  rw [List.take_eq_take, hlen]
  omega

/-- C2, witness for the amended theorem on the counterexample text. -/
theorem c2_coverage_witness :
    coveredTokens "a b c d e f g h i" 8 =
      (tokenize "a b c d e f g h i").take (coveredTokens "a b c d e f g h i" 8).length ∧
    (coveredTokens "a b c d e f g h i" 8).length ≤ (tokenize "a b c d e f g h i").length ∧
    4 * ((tokenize "a b c d e f g h i").length -
        (coveredTokens "a b c d e f g h i" 8).length) < 8 :=
  c2_coverage_amended "a b c d e f g h i" 8 (by decide)

/-- C4, counterexample: the claim includes sentence-based chunking "for
every overlap setting", but sentence-based chunking only caps the number of
**sentences considered** (`maxChunks * chunkSize`), not the number of chunks
produced after grouping.  With 10 one-word paragraphs (each a sentence),
`chunkSize = 5`, `overlap = 4` (step 1) and `maxChunks = 2`, the function
returns 9 chunks, not at most 2. -/
theorem c4_max_chunks_counterexample :
    (sentenceBasedChunking "a\n\nb\n\nc\n\nd\n\ne\n\nf\n\ng\n\nh\n\ni\n\nj"
      { chunkSize := some 5, overlap := some 4, maxChunks := some 2 }).chunks.length = 9 ∧
    ¬ (sentenceBasedChunking "a\n\nb\n\nc\n\nd\n\ne\n\nf\n\ng\n\nh\n\ni\n\nj"
      { chunkSize := some 5, overlap := some 4, maxChunks := some 2 }).chunks.length ≤ 2 := by
  constructor
  · decide
  · decide

/-- C4, amended: with `maxChunks > 0`, paragraph-based chunking, the
boundary-snapping character strategy, the recursive splitter and the
heuristic semantic fallback always return at most `maxChunks` chunks, for
every input and overlap; sentence-based chunking instead caps the sentences
considered at `maxChunks * chunkSize` before grouping, which bounds the
chunk count by `maxChunks` only when `overlap` is absent or 0 (the
counterexample shows the bound fails for positive overlap). -/
theorem c4_max_chunks_amended :
    ∀ (t : String) (o : ChunkingOptions) (mc : Nat),
      o.maxChunks = some mc → 0 < mc →
      (paragraphBasedChunking t o).chunks.length ≤ mc ∧
      (fixedLengthCharsChunking t o).chunks.length ≤ mc ∧
      (recursiveTextSplitter t o).chunks.length ≤ mc ∧
      (heuristicSemanticChunking t o).chunks.length ≤ mc ∧
      (sentencesToProcess t o).length ≤ mc * o.chunkSize.getD 5 ∧
      ((o.overlap = none ∨ o.overlap = some 0) →
        (sentenceBasedChunking t o).chunks.length ≤ mc) := by
  intro t o mc h hmc
  refine ⟨paragraphBased_maxChunks t o mc h hmc,
    fixedLengthChars_maxChunks t o mc h hmc,
    recursive_maxChunks t o mc h hmc,
    heuristic_maxChunks t o mc h hmc, ?_,
    sentence_maxChunks_overlap0 t o mc h hmc⟩
  unfold sentencesToProcess
  rw [h]
  simp only [Option.getD_some, if_pos hmc, List.length_take]
  omega

/-- C4, witness for the amended theorem at a concrete text and options. -/
theorem c4_max_chunks_witness :
    (paragraphBasedChunking "p one\n\np two\n\np three" { chunkSize := some 5, maxChunks := some 2 }).chunks.length ≤ 2 ∧
    (fixedLengthCharsChunking "p one\n\np two\n\np three" { chunkSize := some 5, maxChunks := some 2 }).chunks.length ≤ 2 ∧
    (recursiveTextSplitter "p one\n\np two\n\np three" { chunkSize := some 5, maxChunks := some 2 }).chunks.length ≤ 2 ∧
    (heuristicSemanticChunking "p one\n\np two\n\np three" { chunkSize := some 5, maxChunks := some 2 }).chunks.length ≤ 2 ∧
    (sentencesToProcess "p one\n\np two\n\np three" { chunkSize := some 5, maxChunks := some 2 }).length ≤ 2 * 5 ∧
    (sentenceBasedChunking "p one\n\np two\n\np three" { chunkSize := some 5, maxChunks := some 2 }).chunks.length ≤ 2 := by
  have h := c4_max_chunks_amended "p one\n\np two\n\np three"
    { chunkSize := some 5, maxChunks := some 2 } 2 rfl (by decide)
  exact ⟨h.1, h.2.1, h.2.2.1, h.2.2.2.1, h.2.2.2.2.1, h.2.2.2.2.2 (Or.inl rfl)⟩

/-- C5: sliding-window chunking never returns more than 100 chunks, for any
text and options (both the character and the token mode stop at the local
`maxChunks = 100`), and whenever the chunk count estimated from the natural
step `max(1, chunkSize - overlap)` exceeds 100, the step actually used is
widened to `ceil(length / 100)` (`length` in the active unit, characters or
tokens). -/
theorem c5_sliding_window_cap :
    ∀ (t : String) (o : ChunkingOptions),
      (slidingWindowChunking t o).chunks.length ≤ 100 ∧
      (100 < slidingEstimated t.data.length
          (slidingStep (o.chunkSize.getD 100) (o.overlap.getD 50)) →
        slidingAdjustedStep t.data.length (o.chunkSize.getD 100) (o.overlap.getD 50) =
          ceilDiv t.data.length 100) ∧
      (100 < slidingEstimated (tokenize t).length
          (slidingStep (o.chunkSize.getD 100) (o.overlap.getD 50)) →
        slidingAdjustedStep (tokenize t).length (o.chunkSize.getD 100) (o.overlap.getD 50) =
          ceilDiv (tokenize t).length 100) := by
  intro t o
  refine ⟨?_, ?_, ?_⟩
  · unfold slidingWindowChunking
    dsimp only
    split
    · rw [mkResult_chunks_length]
      have h := slidingCharGo_length_le t.data (o.chunkSize.getD 100)
        (slidingAdjustedStep t.data.length (o.chunkSize.getD 100) (o.overlap.getD 50))
        (t.data.length + 1) 0 false 0 (by omega)
      omega
    · rw [mkResult_chunks_length]
      have h := slidingTokenGo_length_le (tokenize t) (o.chunkSize.getD 100)
        (slidingAdjustedStep (tokenize t).length (o.chunkSize.getD 100) (o.overlap.getD 50))
        ((tokenize t).length + 1) 0 false 0 (by omega)
      omega
  · intro h
    unfold slidingAdjustedStep
    rw [if_pos h]
  · intro h
    unfold slidingAdjustedStep
    rw [if_pos h]

/-- C5, witness: 101 `"a"` tokens (201 characters), window 300, overlap 299:
the natural step is 1, both estimates exceed 100, and the widened steps are
`ceil(201/100) = 3` and `ceil(101/100) = 2`. -/
theorem c5_sliding_window_cap_witness :
    (slidingWindowChunking (joinSep " " (List.replicate 101 "a"))
      { chunkSize := some 300, overlap := some 299 }).chunks.length ≤ 100 ∧
    slidingAdjustedStep
      (joinSep " " (List.replicate 101 "a")).data.length 300 299 =
      ceilDiv (joinSep " " (List.replicate 101 "a")).data.length 100 ∧
    slidingAdjustedStep
      (tokenize (joinSep " " (List.replicate 101 "a"))).length 300 299 =
      ceilDiv (tokenize (joinSep " " (List.replicate 101 "a"))).length 100 :=
  ⟨(c5_sliding_window_cap (joinSep " " (List.replicate 101 "a"))
      { chunkSize := some 300, overlap := some 299 }).1,
   (c5_sliding_window_cap (joinSep " " (List.replicate 101 "a"))
      { chunkSize := some 300, overlap := some 299 }).2.1 (by decide),
   (c5_sliding_window_cap (joinSep " " (List.replicate 101 "a"))
      { chunkSize := some 300, overlap := some 299 }).2.2 (by decide)⟩

/-- C9, witness for the amended theorem at concrete vectors. -/
theorem c9_zero_vector_witness :
    cosineSimilarityE (fun q => q) [0] [2] = .ok 0 ∧
    calculateCosineSimilarity (fun q => q) [0] [0, 3] = none :=
  ⟨c9_zero_vector_amended.1 (fun q => q) [0] [2] (by decide) (Or.inl (by norm_num)),
   c9_zero_vector_amended.2 (fun q => q) [0] [0, 3] (by norm_num) (by decide)⟩

/-- C10, counterexample: on the input `"_PLACEH_PLACEHOLDER_OLDER_"` (which
contains the literal substring `"_PLACEHOLDER_"`), sentence-based chunking
returns the single chunk text `"_PLACEHOLDER_"`: stripping the inner literal
occurrence splices the surrounding characters into a fresh
`"_PLACEHOLDER_"`, so the returned chunk text still contains the placeholder
substring, refuting the claim that every occurrence is removed from the
returned chunk texts. -/
theorem c10_placeholder_counterexample :
    containsSub "_PLACEHOLDER_" "_PLACEH_PLACEHOLDER_OLDER_" = true ∧
    (sentenceBasedChunking "_PLACEH_PLACEHOLDER_OLDER_" {}).chunks.map
      Chunk.text = ["_PLACEHOLDER_"] ∧
    containsSub "_PLACEHOLDER_"
      (joinSep " " ((sentenceBasedChunking "_PLACEH_PLACEHOLDER_OLDER_"
        {}).chunks.map Chunk.text)) = true :=
  ⟨by decide, by decide, by decide⟩

/-- C10, amended: `postprocessText` does delete every *original* occurrence of
`"_PLACEHOLDER_"` and `"_DECIMAL_"` — one global `replace(/pat/g, "")` per
pattern, so when the pattern occurs the text shrinks by at least the pattern
length (13 resp. 9 characters) and when it does not occur the text is
unchanged — but deletion is a splice, not a mask: the residue of the
surrounding characters can itself spell the placeholder again, as on
`"_PLACEH_PLACEHOLDER_OLDER_"` which postprocesses to `"_PLACEHOLDER_"`.
Hence returned chunk texts may still contain the placeholder substrings even
though each individual occurrence present before stripping was removed. -/
theorem c10_placeholder_amended :
    (∀ s : String, containsSub "_PLACEHOLDER_" s = true →
      (removeAllStr "_PLACEHOLDER_" s).length + 13 ≤ s.length) ∧
    (∀ s : String, containsSub "_PLACEHOLDER_" s = false →
      removeAllStr "_PLACEHOLDER_" s = s) ∧
    (∀ s : String, containsSub "_DECIMAL_" s = true →
      (removeAllStr "_DECIMAL_" s).length + 9 ≤ s.length) ∧
    (∀ s : String, containsSub "_DECIMAL_" s = false →
      removeAllStr "_DECIMAL_" s = s) ∧
    postprocessText "_PLACEH_PLACEHOLDER_OLDER_" = "_PLACEHOLDER_" := by
  refine ⟨?_, ?_, ?_, ?_, by decide⟩
  · intro s h
    have h1 := removeAllAux_length_sub "_PLACEHOLDER_".data (by decide)
      s.data.length s.data (le_refl _) h
    have h2 : ("_PLACEHOLDER_".data).length = 13 := by decide
    rw [h2] at h1
    exact h1
  · intro s h
    have := removeAllAux_not_contains "_PLACEHOLDER_".data s.data.length s.data h
    unfold removeAllStr
    rw [this]
  · intro s h
    have h1 := removeAllAux_length_sub "_DECIMAL_".data (by decide)
      s.data.length s.data (le_refl _) h
    have h2 : ("_DECIMAL_".data).length = 9 := by decide
    rw [h2] at h1
    exact h1
  · intro s h
    have := removeAllAux_not_contains "_DECIMAL_".data s.data.length s.data h
    unfold removeAllStr
    rw [this]

/-- C10, witness: the amended theorem applied at concrete strings with each
hypothesis discharged. -/
theorem c10_placeholder_witness :
    (removeAllStr "_PLACEHOLDER_" "a_PLACEHOLDER_b").length + 13 ≤
      ("a_PLACEHOLDER_b" : String).length ∧
    removeAllStr "_PLACEHOLDER_" "plain text" = "plain text" ∧
    (removeAllStr "_DECIMAL_" "x_DECIMAL_y").length + 9 ≤
      ("x_DECIMAL_y" : String).length ∧
    removeAllStr "_DECIMAL_" "plain text" = "plain text" ∧
    postprocessText "_PLACEH_PLACEHOLDER_OLDER_" = "_PLACEHOLDER_" :=
  ⟨c10_placeholder_amended.1 "a_PLACEHOLDER_b" (by decide),
   c10_placeholder_amended.2.1 "plain text" (by decide),
   c10_placeholder_amended.2.2.1 "x_DECIMAL_y" (by decide),
   c10_placeholder_amended.2.2.2.1 "plain text" (by decide),
   c10_placeholder_amended.2.2.2.2⟩

/-! ### C7 helper lemmas: evaluating the `Except` pipeline of the
credentialed semantic path on small concrete inputs (rational arithmetic
does not reduce in the kernel, so these are rewriting proofs). -/

theorem exceptOkBind {α β : Type} (a : α) (g : α → Except String β) :
    (Except.ok a : Except String α) >>= g = g a := rfl

theorem exceptErrorBind {α β : Type} (e : String) (g : α → Except String β) :
    (Except.error e : Except String α) >>= g = Except.error e := rfl

theorem exceptPureBind {α β : Type} (a : α) (g : α → Except String β) :
    (pure a : Except String α) >>= g = g a := rfl

theorem exceptMapError {α β : Type} (e : String) (g : α → β) :
    Except.map g (Except.error e : Except String α) = Except.error e := rfl

theorem foldl_sq_replicate_zero : ∀ (n : Nat) (s : ℚ),
    (List.replicate n (0 : ℚ)).foldl (fun t x => t + x * x) s = s := by
  intro n
  induction n with
  | zero => intro s; rfl
  | succ k ih =>
    intro s
    rw [List.replicate_succ, List.foldl_cons, show s + 0 * 0 = s by ring]
    exact ih s

/-- The zero vectors produced by a failed provider request are equal-length
and have zero square norm, so `cosineSimilarity` hits its zero-norm guard
and returns 0 without consulting `Math.sqrt`. -/
theorem cosineSimilarityE_replicate_zero (f : ℚ → ℚ) (n : Nat) :
    cosineSimilarityE f (List.replicate n 0) (List.replicate n 0) =
      Except.ok 0 := by
  unfold cosineSimilarityE
  dsimp only
  rw [if_neg (by simp), if_pos (Or.inl (foldl_sq_replicate_zero n 0))]

theorem blankParagraphs_alpha_beta :
    blankParagraphs "Alpha\n\nBeta" = ["Alpha", "Beta"] := by decide

theorem getOpenAIEmbeddings_none (t : String) :
    getOpenAIEmbeddings (fun _ => none) t = List.replicate 1536 0 := rfl

/-- With the always-failing provider every similarity is computed between
two zero vectors, every `cosineSimilarity` call succeeds, and (with
`overlap = 0`) the credentialed semantic path completes without throwing:
`semanticProtos` is `ok`. -/
theorem semanticProtos_zero_provider_ok :
    ∃ ps, semanticProtos (fun q => q) (fun _ => none) "Alpha\n\nBeta" 0 0 =
      Except.ok ps := by
  unfold semanticProtos
  dsimp only
  rw [blankParagraphs_alpha_beta]
  simp only [List.length_cons, List.length_nil, List.map_cons, List.map_nil,
    getOpenAIEmbeddings_none, List.range_succ, List.range_zero,
    List.nil_append, List.singleton_append, List.mapM_cons, List.mapM_nil,
    List.getD_cons_zero, List.getD_cons_succ,
    cosineSimilarityE_replicate_zero, exceptOkBind, exceptErrorBind,
    exceptPureBind, lt_self_iff_false, false_and, if_false]
  exact ⟨_, rfl⟩

/-- C7, counterexample: a failed embedding-provider request is **not**
rerouted to the heuristic splitter.  `getOpenAIEmbeddings` catches the
failure itself and substitutes a zero vector, so the credentialed path runs
to completion on the two-paragraph text `"Alpha\n\nBeta"` with an
always-failing provider, and the returned result is the semantic result
(notes `"Advanced semantic chunking…"`), not the heuristic result (notes
`"Semantic-like chunking…"`).  Only an exception thrown inside the `try`
(e.g. `cosineSimilarity`'s length check on a malformed payload) reaches the
`catch`. -/
theorem c7_provider_failure_counterexample :
    semanticChunking (fun q => q) (fun _ => none) "Alpha\n\nBeta"
      { apiKey := some "key" } ≠
    heuristicSemanticChunking "Alpha\n\nBeta" { apiKey := some "key" } := by
  obtain ⟨ps, hps⟩ := semanticProtos_zero_provider_ok
  have hw : semanticWithKeyTry (fun q => q) (fun _ => none) "Alpha\n\nBeta"
      { apiKey := some "key" } = Except.ok (semanticResult ps 0) := by
    unfold semanticWithKeyTry
    have h1 : ({ apiKey := some "key" } : ChunkingOptions).maxChunks.getD 0 =
        0 := rfl
    rw [h1, hps]
    rfl
  have hsem : semanticChunking (fun q => q) (fun _ => none) "Alpha\n\nBeta"
      { apiKey := some "key" } = semanticResult ps 0 := by
    unfold semanticChunking
    rw [if_pos (by decide)]
    dsimp only
    rw [if_neg (by decide), hw]
  intro h
  rw [hsem] at h
  have hnotes := congrArg (fun r => r.analysis.notes) h
  simp only at hnotes
  obtain ⟨r1, h1⟩ : ∃ r1, (semanticResult ps 0).analysis.notes =
      "Advanced semantic chunking with OpenAI embeddings identified " ++ r1 :=
    ⟨_, rfl⟩
  have h2 : (heuristicSemanticChunking "Alpha\n\nBeta"
      { apiKey := some "key" }).analysis.notes =
      "Semantic-like chunking identified 2 potential section boundaries and created 1 chunks based on document structure and content." := by
    decide
  rw [h1, h2] at hnotes
  have hd := congrArg String.data hnotes
  rw [String.data_append] at hd
  have h3 := congrArg (fun l => l[0]?) hd
  simp only at h3
  rw [List.getElem?_append_left (by decide)] at h3
  revert h3
  decide

/-- C7, amended: (1) a failed or malformed provider request is swallowed
inside `getOpenAIEmbeddings`, which returns the zero vector
`Array(1536).fill(0)` instead of throwing, so the semantic path keeps
running on degraded embeddings; (2) only when the `try` body itself throws
(the sole thrower is `cosineSimilarity`'s length check, reachable e.g. via a
ragged payload) does `semanticChunking` return the heuristic splitter's
result on the same text and options; (3) when the `try` body succeeds its
result is returned as-is.  In all cases the provider error is never
propagated to the caller as a hard failure. -/
theorem c7_provider_failure_amended :
    (∀ (provider : String → Option (List ℚ)) (t : String),
      provider t = none →
      getOpenAIEmbeddings provider t = List.replicate 1536 0) ∧
    (∀ (f : ℚ → ℚ) (provider : String → Option (List ℚ)) (t : String)
        (o : ChunkingOptions) (e : String),
      jsTruthyStr o.apiKey = true → ¬ (blankParagraphs t).length ≤ 1 →
      semanticWithKeyTry f provider t o = Except.error e →
      semanticChunking f provider t o = heuristicSemanticChunking t o) ∧
    (∀ (f : ℚ → ℚ) (provider : String → Option (List ℚ)) (t : String)
        (o : ChunkingOptions) (r : ChunkingResult),
      jsTruthyStr o.apiKey = true → ¬ (blankParagraphs t).length ≤ 1 →
      semanticWithKeyTry f provider t o = Except.ok r →
      semanticChunking f provider t o = r) := by
  refine ⟨?_, ?_, ?_⟩
  · intro provider t h
    unfold getOpenAIEmbeddings
    rw [h]
  · intro f provider t o e hk hp he
    unfold semanticChunking
    rw [if_pos hk]
    dsimp only
    rw [if_neg hp, he]
  · intro f provider t o r hk hp ho
    unfold semanticChunking
    rw [if_pos hk]
    dsimp only
    rw [if_neg hp, ho]

/-- C7, witness: the amended theorem applied at concrete inputs.  The
always-failing provider yields the 1536-dimensional zero vector, and a
ragged provider (1-dimensional embedding for `"Alpha"`, 2-dimensional for
`"Beta"`) makes `cosineSimilarity` throw inside the `try`, so
`semanticChunking` returns the heuristic splitter's result. -/
theorem c7_provider_failure_witness :
    getOpenAIEmbeddings (fun _ => none) "Alpha" = List.replicate 1536 0 ∧
    semanticChunking (fun q => q)
      (fun s => if s = "Alpha" then some [(1 : ℚ)] else some [1, 1])
      "Alpha\n\nBeta" { apiKey := some "key" } =
    heuristicSemanticChunking "Alpha\n\nBeta" { apiKey := some "key" } := by
  have he0 : getOpenAIEmbeddings
      (fun s => if s = "Alpha" then some [(1 : ℚ)] else some [1, 1])
      "Alpha" = [(1 : ℚ)] := rfl
  have he1 : getOpenAIEmbeddings
      (fun s => if s = "Alpha" then some [(1 : ℚ)] else some [1, 1])
      "Beta" = [(1 : ℚ), 1] := rfl
  have hcok : ∃ q, cosineSimilarityE (fun q => q) [(1 : ℚ)] [(1 : ℚ)] =
      Except.ok q := by
    unfold cosineSimilarityE
    dsimp only
    rw [if_neg (by simp), if_neg (by norm_num [List.foldl_cons, List.foldl_nil])]
    exact ⟨_, rfl⟩
  have hc01 : cosineSimilarityE (fun q => q) [(1 : ℚ)] [(1 : ℚ), 1] =
      Except.error "Vectors must have the same length" := by
    unfold cosineSimilarityE
    rw [if_pos (by decide)]
  obtain ⟨qv, hq⟩ := hcok
  have herr : semanticWithKeyTry (fun q => q)
      (fun s => if s = "Alpha" then some [(1 : ℚ)] else some [1, 1])
      "Alpha\n\nBeta" { apiKey := some "key" } =
      Except.error "Vectors must have the same length" := by
    unfold semanticWithKeyTry semanticProtos
    dsimp only
    rw [blankParagraphs_alpha_beta]
    simp only [List.length_cons, List.length_nil, List.map_cons, List.map_nil,
      he0, he1, List.range_succ, List.range_zero, List.nil_append,
      List.singleton_append, List.mapM_cons, List.mapM_nil,
      List.getD_cons_zero, List.getD_cons_succ]
    rw [hq, hc01]
    simp only [exceptOkBind, exceptErrorBind, exceptPureBind, exceptMapError]
  exact ⟨c7_provider_failure_amended.1 (fun _ => none) "Alpha" rfl,
    c7_provider_failure_amended.2.1 (fun q => q)
      (fun s => if s = "Alpha" then some [(1 : ℚ)] else some [1, 1])
      "Alpha\n\nBeta" { apiKey := some "key" }
      "Vectors must have the same length" (by decide) (by decide) herr⟩

end RagToolkit
